import Mathlib

/-!
Verification of the Bird-Migration-tracker repository: a shallow embedding in
Lean 4 of the data model and the operations of `src/migration_tracker/data.py`,
`src/migration_tracker/analysis.py`, `src/migration_tracker/utils.py` and the
Haversine helper of `scripts/analyze_migration_data_enhanced.py`, together with
theorems settling the frozen claims about them.

A pandas `DataFrame` is embedded as a list of column names, a parallel list of
column dtypes, and a list of rows, each row a list of cells.  A cell (`Value`)
is a rational number (covering the int and float cells the scripts handle),
a string, a datetime, or a missing value (`null`, embedding `NaN`/`NaT`).
Machine floats are embedded as exact rationals: none of the claims below
depends on rounding, and the numeric claim (the Haversine distance) carries a
±5 km tolerance that dwarfs double-precision error, so its function is
embedded over the reals.
-/

namespace BirdMigration

/-- One cell of a pandas DataFrame: a number (int or float), a string, a
datetime (encoded by an integer key), or a missing value (`NaN`/`NaT`). -/
inductive Value where
  | num (q : ℚ)
  | str (s : String)
  | date (d : Int)
  | null
deriving DecidableEq

/-- A row of a DataFrame: one cell per column. -/
abbrev Row := List Value

/-- The pandas column dtypes that the repository manipulates
(`optimize_dtypes` downcasts int64 and float64, `validate_data_types`
produces datetime / numeric / category columns). -/
inductive Dtype where
  | int64
  | int32
  | int16
  | int8
  | float64
  | float32
  | object
  | category
  | datetime
deriving DecidableEq

/-- Embedding of a pandas DataFrame: column names, the dtype of each column
(parallel to `cols`), and the rows. -/
structure DataFrame where
  cols : List String
  dtypes : List Dtype
  rows : List Row
deriving DecidableEq

instance : Inhabited DataFrame := ⟨⟨[], [], []⟩⟩

/-- Position of the first occurrence of `c` in a name list. -/
def colIdxAux (c : String) : List String → Option ℕ
  | [] => none
  | n :: ns => if n = c then some 0 else (colIdxAux c ns).map (· + 1)

/-- Index of a column name, as `df.columns.get_loc`: position of the first
occurrence of `c` in `df.cols`, if present. -/
def colIdx (df : DataFrame) (c : String) : Option ℕ :=
  colIdxAux c df.cols

/-- The cells of column `c` (`df[c]`), top to bottom; `none` when the column
is absent.  A row shorter than the header reads as missing cells. -/
def getCol (df : DataFrame) (c : String) : Option (List Value) :=
  (colIdx df c).map fun i => df.rows.map fun r => r.getD i Value.null

/-- `getCol` with the empty column as default. -/
def getColD (df : DataFrame) (c : String) : List Value :=
  (getCol df c).getD []

/-! ## `DataProcessor.standardize_column_names` (`data.py` lines 125-138)

`df.columns = df.columns.str.lower().str.replace(' ', '_').str.replace('-', '_')`
on a copy of `df`.  Both replaced patterns are single characters, so the
`str.replace` calls are character maps and the whole transform is a character
map over each column name. -/

/-- The per-character action of
`.lower()` then `.replace(' ', '_')` then `.replace('-', '_')`: the space
replacement never produces a hyphen, so the chain flattens to one case
split on the lower-cased character. -/
def standardizeChar (c : Char) : Char :=
  if c.toLower = ' ' then '_'
  else if c.toLower = '-' then '_'
  else c.toLower

/-- One column name standardized: lower-cased, spaces and hyphens replaced by
underscores. -/
def standardizeName (s : String) : String :=
  ⟨s.data.map standardizeChar⟩

/-- `DataProcessor.standardize_column_names`: returns a copy of the frame
whose column names are standardized; dtypes and rows are untouched. -/
def standardize_column_names (df : DataFrame) : DataFrame :=
  { df with cols := df.cols.map standardizeName }

/-! ## `DataProcessor.clean_migration_data` (`data.py` lines 94-123)

On a copy of the frame, `drop_duplicates()` removes every row equal to an
earlier row (pandas `keep='first'`); the subsequent missing-value pass only
logs counts and changes nothing. -/

/-- `drop_duplicates(keep='first')` with an accumulator of items already seen:
an item is kept exactly when it differs from every earlier item.  (Also used
for the first-occurrence group keys of a pandas `groupby`.) -/
def dedupGo {α : Type} [DecidableEq α] (seen : List α) : List α → List α
  | [] => []
  | r :: rs => if r ∈ seen then dedupGo seen rs else r :: dedupGo (r :: seen) rs

/-- `DataFrame.drop_duplicates()` on the row list. -/
def drop_duplicates (l : List Row) : List Row :=
  dedupGo [] l

/-- `DataProcessor.clean_migration_data`: copy, drop exact duplicate rows;
the missing-value scan is pure logging. -/
def clean_migration_data (df : DataFrame) : DataFrame :=
  { df with rows := drop_duplicates df.rows }

/-! ### Properties of column-name standardization -/

set_option maxHeartbeats 1000000 in
lemma toLower_of_upper (n : ℕ) (h1 : 65 ≤ n) (h2 : n ≤ 90) :
    Char.toLower (Char.ofNat (n + 32)) = Char.ofNat (n + 32) := by
  interval_cases n <;> decide

/-- ASCII lower-casing is idempotent: a character produced by `Char.toLower`
is left unchanged by a second `Char.toLower`. -/
lemma toLower_toLower (c : Char) : c.toLower.toLower = c.toLower := by
  by_cases h : c.toNat ≥ 65 ∧ c.toNat ≤ 90
  · conv_lhs => rw [show c.toLower = Char.ofNat (c.toNat + 32) by
      unfold Char.toLower; simp [h]]
    rw [toLower_of_upper c.toNat h.1 h.2]
    unfold Char.toLower; simp [h]
  · have hfix : c.toLower = c := by unfold Char.toLower; simp [h]
    rw [hfix, hfix]

lemma toLower_ne_space (c : Char) (h : c.toLower ≠ ' ') : c.toLower.toLower ≠ ' ' := by
  rw [toLower_toLower]; exact h

lemma standardizeChar_cases (c : Char) :
    standardizeChar c = '_' ∨
    (standardizeChar c = c.toLower ∧ c.toLower ≠ ' ' ∧ c.toLower ≠ '-') := by
  unfold standardizeChar
  by_cases h1 : c.toLower = ' '
  · left; rw [if_pos h1]
  · by_cases h2 : c.toLower = '-'
    · left; rw [if_neg h1, if_pos h2]
    · right; exact ⟨by rw [if_neg h1, if_neg h2], h1, h2⟩

lemma standardizeChar_idem (c : Char) :
    standardizeChar (standardizeChar c) = standardizeChar c := by
  rcases standardizeChar_cases c with h | ⟨h, h1, h2⟩
  · rw [h]; decide
  · rw [h]; unfold standardizeChar; rw [toLower_toLower, if_neg h1, if_neg h2]

lemma standardizeName_idem (s : String) :
    standardizeName (standardizeName s) = standardizeName s := by
  unfold standardizeName
  simp only [List.map_map]
  congr 1
  exact List.map_congr_left fun c _ => standardizeChar_idem c

/-- Claim C3: `standardize_column_names` is idempotent — applying it twice
yields the same column names and the same table as applying it once — where
one application lower-cases every column name and replaces each space and
hyphen by an underscore (per-character map `standardizeChar`), leaving dtypes
and rows untouched. -/
theorem C3_standardize_column_names_idempotent (df : DataFrame) :
    standardize_column_names (standardize_column_names df) =
      standardize_column_names df ∧
    (standardize_column_names df).cols = df.cols.map standardizeName ∧
    (standardize_column_names df).rows = df.rows ∧
    (standardize_column_names df).dtypes = df.dtypes := by
  refine ⟨?_, rfl, rfl, rfl⟩
  unfold standardize_column_names
  simp only [List.map_map]
  congr 1
  exact List.map_congr_left fun s _ => standardizeName_idem s

/-! ### Properties of deduplication -/

lemma dedupGo_sublist (seen : List Row) (l : List Row) :
    (dedupGo seen l).Sublist l := by
  induction l generalizing seen with
  | nil => simp [dedupGo]
  | cons r rs ih =>
    unfold dedupGo
    by_cases h : r ∈ seen
    · rw [if_pos h]
      exact (ih seen).trans (List.sublist_cons_self r rs)
    · rw [if_neg h]
      exact (ih (r :: seen)).cons₂ r

lemma mem_dedupGo {x : Row} (seen : List Row) (l : List Row) :
    x ∈ dedupGo seen l ↔ x ∈ l ∧ x ∉ seen := by
  induction l generalizing seen with
  | nil => simp [dedupGo]
  | cons r rs ih =>
    unfold dedupGo
    by_cases h : r ∈ seen
    · rw [if_pos h, ih seen]
      constructor
      · rintro ⟨hx, hs⟩; exact ⟨List.mem_cons_of_mem _ hx, hs⟩
      · rintro ⟨hx, hs⟩
        rcases List.mem_cons.mp hx with rfl | hx
        · exact absurd h hs
        · exact ⟨hx, hs⟩
    · rw [if_neg h]
      constructor
      · intro hx
        rcases List.mem_cons.mp hx with rfl | hx
        · exact ⟨List.mem_cons_self _ _, h⟩
        · obtain ⟨h1, h2⟩ := (ih (r :: seen)).mp hx
          exact ⟨List.mem_cons_of_mem _ h1, fun hc => h2 (List.mem_cons_of_mem _ hc)⟩
      · rintro ⟨hx, hs⟩
        by_cases hxr : x = r
        · subst hxr; exact List.mem_cons_self _ _
        · rcases List.mem_cons.mp hx with h2 | h2
          · exact absurd h2 hxr
          · refine List.mem_cons_of_mem _ ((ih (r :: seen)).mpr ⟨h2, fun hc => ?_⟩)
            rcases List.mem_cons.mp hc with h3 | h3
            · exact hxr h3
            · exact hs h3

lemma dedupGo_nodup (seen : List Row) (l : List Row) :
    (dedupGo seen l).Nodup := by
  induction l generalizing seen with
  | nil => simp [dedupGo]
  | cons r rs ih =>
    unfold dedupGo
    by_cases h : r ∈ seen
    · simpa [h] using ih seen
    · simp only [if_neg h, List.nodup_cons]
      refine ⟨fun hmem => ?_, ih (r :: seen)⟩
      exact ((mem_dedupGo _ _).mp hmem).2 (List.mem_cons_self r _)

lemma dedupGo_append_singleton (seen : List Row) (xs : List Row) (r : Row) :
    dedupGo seen (xs ++ [r]) =
      dedupGo seen xs ++ if r ∈ seen ∨ r ∈ xs then [] else [r] := by
  induction xs generalizing seen with
  | nil => by_cases h : r ∈ seen <;> simp [dedupGo, h]
  | cons x xs ih =>
    simp only [List.cons_append]
    unfold dedupGo
    by_cases h : x ∈ seen
    · rw [if_pos h, if_pos h, ih seen]
      have hiff : (r ∈ seen ∨ r ∈ xs) ↔ (r ∈ seen ∨ r ∈ x :: xs) := by
        simp only [List.mem_cons]
        constructor
        · rintro (hs | hx2)
          exacts [Or.inl hs, Or.inr (Or.inr hx2)]
        · rintro (hs | rfl | hx2)
          exacts [Or.inl hs, Or.inl h, Or.inr hx2]
      congr 1
      exact if_congr hiff rfl rfl
    · rw [if_neg h, if_neg h, ih (x :: seen)]
      simp only [List.cons_append]
      have hiff : (r ∈ x :: seen ∨ r ∈ xs) ↔ (r ∈ seen ∨ r ∈ x :: xs) := by
        simp only [List.mem_cons]
        tauto
      congr 2
      exact if_congr hiff rfl rfl

lemma dedupGo_of_nodup (seen : List Row) (l : List Row) (hl : l.Nodup)
    (hdis : ∀ x ∈ l, x ∉ seen) : dedupGo seen l = l := by
  induction l generalizing seen with
  | nil => simp [dedupGo]
  | cons r rs ih =>
    unfold dedupGo
    rw [if_neg (hdis r (List.mem_cons_self r rs))]
    congr 1
    refine ih (r :: seen) (List.nodup_cons.mp hl).2 fun x hx => ?_
    intro hmem
    rcases List.mem_cons.mp hmem with rfl | h2
    · exact (List.nodup_cons.mp hl).1 hx
    · exact hdis x (List.mem_cons_of_mem _ hx) h2

lemma drop_duplicates_idem (l : List Row) :
    drop_duplicates (drop_duplicates l) = drop_duplicates l := by
  unfold drop_duplicates
  exact dedupGo_of_nodup [] _ (dedupGo_nodup [] l) (by simp)

/-- Claim C2: `clean_migration_data` removes a row exactly when it is an exact
full-row duplicate of an earlier row and changes nothing else: the output rows
are a sublist of the input rows with the same membership and no duplicates
left, a row appended to any table survives the deduplication iff it does not
already occur, the column names and dtypes are untouched, and the whole
operation is idempotent. -/
theorem C2_clean_migration_data_dedup (df : DataFrame) :
    (clean_migration_data df).rows.Sublist df.rows ∧
    (∀ r : Row, r ∈ (clean_migration_data df).rows ↔ r ∈ df.rows) ∧
    (clean_migration_data df).rows.Nodup ∧
    (∀ (xs : List Row) (r : Row),
      drop_duplicates (xs ++ [r]) =
        drop_duplicates xs ++ if r ∈ xs then [] else [r]) ∧
    (clean_migration_data df).cols = df.cols ∧
    (clean_migration_data df).dtypes = df.dtypes ∧
    clean_migration_data (clean_migration_data df) = clean_migration_data df := by
  refine ⟨dedupGo_sublist [] df.rows,
    fun r => by simpa using mem_dedupGo (x := r) [] df.rows,
    dedupGo_nodup [] df.rows,
    fun xs r => by simpa using dedupGo_append_singleton [] xs r,
    rfl, rfl, ?_⟩
  unfold clean_migration_data
  simp [drop_duplicates_idem]

/-! ## `DataProcessor.validate_data_types` (`data.py` lines 140-168)

For each `(column, expected_type)` pair the code attempts a conversion inside
`try`, and on any exception logs a warning and keeps the column as it was.
Of the three conversions only `pd.to_datetime(df[col])` can raise (an
unparseable cell); `pd.to_numeric(df[col], errors='coerce')` coerces bad
cells to `NaN` instead of raising, and `astype('category')` always succeeds.
An `expected_type` other than the three recognised ones hits no branch and
changes nothing. -/

/-- `pd.to_datetime` on one cell: missing stays missing, datetimes pass
through, integral numbers convert as epoch offsets, and a string must parse
as an ISO `year-month-day` date; anything else raises (`none`). -/
def toDatetimeCell : Value → Option Value
  | .null => some .null
  | .date d => some (.date d)
  | .num q => if q.den = 1 then some (.date q.num) else none
  | .str s =>
    match s.splitOn "-" with
    | [y, m, d] =>
      match y.toNat?, m.toNat?, d.toNat? with
      | some yn, some mn, some dn =>
        if 1 ≤ mn ∧ mn ≤ 12 ∧ 1 ≤ dn ∧ dn ≤ 31 then
          some (.date (yn * 10000 + mn * 100 + dn))
        else none
      | _, _, _ => none
    | _ => none

/-- `pd.to_numeric(..., errors='coerce')` on one cell: numbers pass through,
datetimes read as their integer key, unparseable strings coerce to `NaN`;
never raises. -/
def toNumericCell : Value → Value
  | .num q => .num q
  | .date d => .num d
  | .null => .null
  | .str s =>
    match s.toInt? with
    | some n => .num n
    | none => .null

/-- `mapM` over `Option`, written by recursion: converts every cell or
reports the exception (`none`) that `pd.to_datetime` raises on the first bad
cell. -/
def mapOption {α β : Type} (f : α → Option β) : List α → Option (List β)
  | [] => some []
  | a :: as =>
    match f a, mapOption f as with
    | some b, some bs => some (b :: bs)
    | _, _ => none

/-- Overwrite column `c` with the cell list `vs` and dtype `dt`
(`df[col] = ...`); a frame without the column is returned unchanged. -/
def setCol (df : DataFrame) (c : String) (vs : List Value) (dt : Dtype) : DataFrame :=
  match colIdx df c with
  | none => df
  | some i =>
    { df with
      dtypes := df.dtypes.set i dt
      rows := List.zipWith (fun r v => r.set i v) df.rows vs }

/-- The dtype of column `c`, when present. -/
def dtypeOf (df : DataFrame) (c : String) : Option Dtype :=
  (colIdx df c).bind fun i => df.dtypes[i]?

/-- The body of the `validate_data_types` loop for one `(col, expected_type)`
pair: skip absent columns, convert recognised types, catch the
`pd.to_datetime` exception by keeping the frame unchanged. -/
def applyConversion (df : DataFrame) (c target : String) : DataFrame :=
  if c ∈ df.cols then
    if target = "datetime" then
      match mapOption toDatetimeCell (getColD df c) with
      | some ws => setCol df c ws Dtype.datetime
      | none => df
    else if target = "numeric" then
      setCol df c ((getColD df c).map toNumericCell) Dtype.float64
    else if target = "category" then
      setCol df c (getColD df c) Dtype.category
    else df
  else df

/-- `DataProcessor.validate_data_types`: fold the conversion attempts over
the `(column, expected_type)` pairs of `expected_types` (a Python dict, so
the keys are distinct), on a copy of the frame. -/
def validate_data_types (df : DataFrame) (expected_types : List (String × String)) :
    DataFrame :=
  expected_types.foldl (fun acc ct => applyConversion acc ct.1 ct.2) df

/-- The one conversion that can fail: `expected_type` is `datetime` and some
cell of the column does not parse. -/
def conversionFails (target : String) (vs : List Value) : Prop :=
  target = "datetime" ∧ mapOption toDatetimeCell vs = none

instance (target : String) (vs : List Value) : Decidable (conversionFails target vs) :=
  inferInstanceAs (Decidable (_ ∧ _))

/-! ### Properties of type validation -/

lemma colIdxAux_get? {c : String} :
    ∀ {l : List String} {j : ℕ}, colIdxAux c l = some j → l.get? j = some c := by
  intro l
  induction l with
  | nil => intro j h; simp [colIdxAux] at h
  | cons n ns ih =>
    intro j h
    unfold colIdxAux at h
    by_cases hn : n = c
    · rw [if_pos hn] at h
      cases h
      simp [hn]
    · rw [if_neg hn] at h
      cases hk : colIdxAux c ns with
      | none => rw [hk] at h; simp at h
      | some k =>
        rw [hk] at h
        obtain rfl : k + 1 = j := by simpa using h
        simpa using ih hk

lemma colIdxAux_isSome_of_mem {c : String} :
    ∀ {l : List String}, c ∈ l → (colIdxAux c l).isSome := by
  intro l
  induction l with
  | nil => intro h; simp at h
  | cons n ns ih =>
    intro h
    unfold colIdxAux
    by_cases hn : n = c
    · rw [if_pos hn]; rfl
    · rw [if_neg hn]
      rcases List.mem_cons.mp h with rfl | h2
      · exact absurd rfl hn
      · have hsome := ih h2
        cases hk : colIdxAux c ns with
        | none => rw [hk] at hsome; simp at hsome
        | some k => simp

lemma getColD_of_colIdx {df : DataFrame} {c : String} {i : ℕ}
    (h : colIdx df c = some i) :
    getColD df c = df.rows.map fun r => r.getD i Value.null := by
  simp [getColD, getCol, h]

lemma getColD_length {df : DataFrame} {c : String} (h : c ∈ df.cols) :
    (getColD df c).length = df.rows.length := by
  have hs := colIdxAux_isSome_of_mem (l := df.cols) h
  cases hi : colIdx df c with
  | none => rw [colIdx] at hi; rw [hi] at hs; simp at hs
  | some i => rw [getColD_of_colIdx hi]; simp

lemma mapOption_length {α β : Type} {f : α → Option β} :
    ∀ {l : List α} {l2 : List β}, mapOption f l = some l2 → l2.length = l.length := by
  intro l
  induction l with
  | nil => intro l2 h; cases h; rfl
  | cons a as ih =>
    intro l2 h
    unfold mapOption at h
    cases hfa : f a with
    | none => rw [hfa] at h; simp at h
    | some b =>
      rw [hfa] at h
      cases hrest : mapOption f as with
      | none => rw [hrest] at h; simp at h
      | some bs =>
        rw [hrest] at h
        cases h
        simpa using ih hrest

lemma setCol_cols (df : DataFrame) (c : String) (vs : List Value) (dt : Dtype) :
    (setCol df c vs dt).cols = df.cols := by
  unfold setCol
  cases colIdx df c <;> rfl

lemma setCol_rows_length {df : DataFrame} {vs : List Value} (c : String) (dt : Dtype)
    (hv : vs.length = df.rows.length) :
    (setCol df c vs dt).rows.length = df.rows.length := by
  unfold setCol
  cases colIdx df c with
  | none => rfl
  | some i => simp [List.length_zipWith, hv]

lemma map_getD_zipWith_set :
    ∀ (rows : List Row) (vs : List Value) (i j : ℕ), i ≠ j →
      vs.length = rows.length →
      (List.zipWith (fun r v => r.set i v) rows vs).map (fun r => r.getD j Value.null) =
        rows.map fun r => r.getD j Value.null := by
  intro rows
  induction rows with
  | nil => intros; simp
  | cons r rs ih =>
    intro vs i j hij hv
    cases vs with
    | nil => simp at hv
    | cons v vs2 =>
      simp only [List.zipWith_cons_cons, List.map_cons]
      congr 1
      · simp [List.getD_eq_getElem?_getD, List.getElem?_set_ne hij]
      · exact ih vs2 i j hij (by simpa using hv)

lemma colIdx_inj {df : DataFrame} {c c1 : String} {i j : ℕ} (hne : c ≠ c1)
    (h1 : colIdx df c1 = some i) (h2 : colIdx df c = some j) : i ≠ j := by
  intro e
  subst e
  have e1 := colIdxAux_get? (l := df.cols) h1
  have e2 := colIdxAux_get? (l := df.cols) h2
  rw [e1] at e2
  cases e2
  exact hne rfl

lemma getCol_setCol_ne {df : DataFrame} {c c1 : String} {vs : List Value} {dt : Dtype}
    (hne : c ≠ c1) (hv : vs.length = df.rows.length) :
    getCol (setCol df c1 vs dt) c = getCol df c := by
  unfold setCol
  cases h1 : colIdx df c1 with
  | none => rfl
  | some i =>
    cases h2 : colIdxAux c df.cols with
    | none => simp [getCol, colIdx, h2]
    | some j =>
      have hij : i ≠ j := colIdx_inj hne h1 h2
      simp only [getCol, colIdx, h2, Option.map_some']
      exact congrArg some (map_getD_zipWith_set df.rows vs i j hij hv)

lemma dtypeOf_setCol_ne {df : DataFrame} {c c1 : String} {vs : List Value} {dt : Dtype}
    (hne : c ≠ c1) :
    dtypeOf (setCol df c1 vs dt) c = dtypeOf df c := by
  unfold setCol
  cases h1 : colIdx df c1 with
  | none => rfl
  | some i =>
    cases h2 : colIdxAux c df.cols with
    | none => simp [dtypeOf, colIdx, h2]
    | some j =>
      have hij : i ≠ j := colIdx_inj hne h1 h2
      simp only [dtypeOf, colIdx, h2, Option.some_bind]
      exact List.getElem?_set_ne hij

lemma applyConversion_cols (df : DataFrame) (c1 t : String) :
    (applyConversion df c1 t).cols = df.cols := by
  unfold applyConversion
  split_ifs with hc h1 h2 h3
  · cases mapOption toDatetimeCell (getColD df c1) with
    | none => rfl
    | some ws => exact setCol_cols _ _ _ _
  · exact setCol_cols _ _ _ _
  · exact setCol_cols _ _ _ _
  · rfl
  · rfl

lemma applyConversion_rows_length (df : DataFrame) (c1 t : String) :
    (applyConversion df c1 t).rows.length = df.rows.length := by
  unfold applyConversion
  split_ifs with hc h1 h2 h3 <;> try rfl
  · cases hm : mapOption toDatetimeCell (getColD df c1) with
    | none => rfl
    | some ws =>
      exact setCol_rows_length c1 Dtype.datetime
        ((mapOption_length hm).trans (getColD_length hc))
  · exact setCol_rows_length c1 Dtype.float64
      (by simpa using getColD_length hc)
  · exact setCol_rows_length c1 Dtype.category (getColD_length hc)

lemma applyConversion_preserve_ne {df : DataFrame} {c c1 : String} (t : String)
    (hne : c ≠ c1) :
    getCol (applyConversion df c1 t) c = getCol df c ∧
    dtypeOf (applyConversion df c1 t) c = dtypeOf df c := by
  unfold applyConversion
  split_ifs with hc h1 h2 h3
  · cases hm : mapOption toDatetimeCell (getColD df c1) with
    | none => exact ⟨rfl, rfl⟩
    | some ws =>
      exact ⟨getCol_setCol_ne hne ((mapOption_length hm).trans (getColD_length hc)),
        dtypeOf_setCol_ne hne⟩
  · exact ⟨getCol_setCol_ne hne (by simpa using getColD_length hc),
      dtypeOf_setCol_ne hne⟩
  · exact ⟨getCol_setCol_ne hne (getColD_length hc), dtypeOf_setCol_ne hne⟩
  · exact ⟨rfl, rfl⟩
  · exact ⟨rfl, rfl⟩

lemma applyConversion_fail {df : DataFrame} {c1 t : String}
    (h : conversionFails t (getColD df c1)) :
    applyConversion df c1 t = df := by
  obtain ⟨ht, hm⟩ := h
  subst ht
  unfold applyConversion
  by_cases hc : c1 ∈ df.cols
  · rw [if_pos hc, if_pos rfl, hm]
  · rw [if_neg hc]

lemma getColD_congr {df df2 : DataFrame} {c : String}
    (h : getCol df2 c = getCol df c) : getColD df2 c = getColD df c := by
  unfold getColD
  rw [h]

/-- Claim C7: `validate_data_types` never lets a conversion failure escape:
for every frame and every `(column, target-type)` mapping with distinct keys,
the result keeps the column set and the row count; a column not named in the
mapping is returned with its cells and dtype unchanged; and a column whose
conversion fails (the only failing conversion is a `datetime` target over an
unparseable cell — `numeric` coerces and `category` always succeeds) is also
returned with its cells and dtype unchanged. -/
theorem C7_validate_data_types_failure_policy (df : DataFrame)
    (ets : List (String × String)) (hkeys : (ets.map Prod.fst).Nodup) :
    (validate_data_types df ets).cols = df.cols ∧
    (validate_data_types df ets).rows.length = df.rows.length ∧
    (∀ c, c ∉ ets.map Prod.fst →
      getCol (validate_data_types df ets) c = getCol df c ∧
      dtypeOf (validate_data_types df ets) c = dtypeOf df c) ∧
    (∀ c t, (c, t) ∈ ets → conversionFails t (getColD df c) →
      getCol (validate_data_types df ets) c = getCol df c ∧
      dtypeOf (validate_data_types df ets) c = dtypeOf df c) := by
  induction ets generalizing df with
  | nil => exact ⟨rfl, rfl, fun c _ => ⟨rfl, rfl⟩, fun c t h => absurd h (by simp)⟩
  | cons ct rest ih =>
    obtain ⟨c1, t1⟩ := ct
    rw [List.map_cons] at hkeys
    have hk1 : c1 ∉ rest.map Prod.fst := (List.nodup_cons.mp hkeys).1
    have hk2 : (rest.map Prod.fst).Nodup := (List.nodup_cons.mp hkeys).2
    have hfold : validate_data_types df ((c1, t1) :: rest) =
        validate_data_types (applyConversion df c1 t1) rest := rfl
    obtain ⟨ihcols, ihlen, ihabsent, ihfail⟩ := ih (applyConversion df c1 t1) hk2
    refine ⟨?_, ?_, ?_, ?_⟩
    · rw [hfold, ihcols, applyConversion_cols]
    · rw [hfold, ihlen, applyConversion_rows_length]
    · intro c hc
      have hne : c ≠ c1 := by
        intro e; exact hc (by simp [e])
      have hcrest : c ∉ rest.map Prod.fst := fun h2 => hc (by simp [h2])
      obtain ⟨e1, e2⟩ := ihabsent c hcrest
      obtain ⟨f1, f2⟩ := applyConversion_preserve_ne t1 hne
      exact ⟨by rw [hfold, e1, f1], by rw [hfold, e2, f2]⟩
    · intro c t hmem hfails
      rcases List.mem_cons.mp hmem with he | hrest
      · injection he with he1 he2
        subst he1; subst he2
        have hstep : applyConversion df c t = df := applyConversion_fail hfails
        rw [hfold, hstep]
        exact (ih df hk2).2.2.1 c hk1
      · have hne : c ≠ c1 := by
          intro e
          subst e
          exact hk1 (by
            have : c ∈ rest.map Prod.fst := by
              exact List.mem_map.mpr ⟨(c, t), hrest, rfl⟩
            simpa using this)
        obtain ⟨f1, f2⟩ := @applyConversion_preserve_ne df c c1 t1 hne
        have hfails2 : conversionFails t (getColD (applyConversion df c1 t1) c) := by
          rwa [getColD_congr f1]
        obtain ⟨e1, e2⟩ := ihfail c t hrest hfails2
        exact ⟨by rw [hfold, e1, f1], by rw [hfold, e2, f2]⟩

/-- Witness for C7 at a concrete input: one column `a` of one unparseable
string cell, mapped to target type `datetime`: the conversion fails and the
frame comes back unchanged. -/
theorem C7_validate_data_types_failure_policy_witness :
    (([(("a" : String), ("datetime" : String))].map Prod.fst).Nodup) ∧
    (validate_data_types ⟨["a"], [Dtype.object], [[Value.str "oops"]]⟩
        [("a", "datetime")]).cols = ["a"] := by
  refine ⟨by decide, ?_⟩
  have h := C7_validate_data_types_failure_policy
    ⟨["a"], [Dtype.object], [[Value.str "oops"]]⟩
    [("a", "datetime")] (by decide)
  exact h.1

/-! ## `calculate_migration_metrics` (`utils.py` lines 240-280)

`metrics['total_migration'] = df[migration_col].sum()` plus grouped sums,
top-10 extractions, mean/median/std and a net-migration alignment.  A pandas
`Series.sum` skips missing values (`NaN`). -/

/-- Numeric reading of a cell: `NaN`, strings and datetimes are not numeric
payload for a `Series.sum`. -/
def cellNum : Value → Option ℚ
  | .num q => some q
  | _ => none

/-- `Series.sum()`: the sum of the numeric cells, skipping missing values. -/
def nanSum (vs : List Value) : ℚ :=
  (vs.filterMap cellNum).sum

/-- `Series.mean()`: `NaN` (`none`) on an all-missing column. -/
def nanMean (vs : List Value) : Option ℚ :=
  let xs := vs.filterMap cellNum
  if xs.length = 0 then none else some (xs.sum / xs.length)

/-- Insert into a list kept sorted ascending by value. -/
def insertAsc (a : ℚ) : List ℚ → List ℚ
  | [] => [a]
  | b :: bs => if a ≤ b then a :: b :: bs else b :: insertAsc a bs

/-- Insertion sort, ascending. -/
def sortAsc (l : List ℚ) : List ℚ :=
  l.foldr insertAsc []

/-- `Series.median()`: middle of the sorted numeric cells, the average of the
two middles for an even count, `NaN` on an all-missing column. -/
def nanMedian (vs : List Value) : Option ℚ :=
  let xs := sortAsc (vs.filterMap cellNum)
  let n := xs.length
  if n = 0 then none
  else if n % 2 = 1 then some (xs.getD (n / 2) 0)
  else some ((xs.getD (n / 2 - 1) 0 + xs.getD (n / 2) 0) / 2)

/-- `Series.std()`: sample standard deviation (`ddof=1`), `NaN` for fewer
than two numeric cells. -/
noncomputable def nanStd (vs : List Value) : Option ℝ :=
  let xs := vs.filterMap cellNum
  let n := xs.length
  if n < 2 then none
  else
    let m : ℚ := xs.sum / n
    some (Real.sqrt (((xs.map fun x => ((x - m : ℚ) : ℝ) ^ 2).sum) / (n - 1)))

/-- `df.groupby(key_col)[val_col].sum()`: one entry per distinct key in
first-appearance order, carrying the NaN-skipping sum of the matching
values. -/
def groupBySum {κ : Type} [DecidableEq κ] (keys : List κ) (vals : List Value) :
    List (κ × ℚ) :=
  (dedupGo [] keys).map fun k =>
    (k, nanSum (((keys.zip vals).filter fun p => p.1 = k).map Prod.snd))

/-- Insert into a list kept sorted descending by the `ℚ` component. -/
def insertDescBy {α : Type} (key : α → ℚ) (a : α) : List α → List α
  | [] => [a]
  | b :: bs => if key b ≤ key a then a :: b :: bs else b :: insertDescBy key a bs

/-- Insertion sort, descending by key. -/
def sortDescBy {α : Type} (key : α → ℚ) (l : List α) : List α :=
  l.foldr (insertDescBy key) []

/-- `Series.nlargest(10)`: the ten largest entries, largest first. -/
def nlargest10 {α : Type} (l : List (α × ℚ)) : List (α × ℚ) :=
  (sortDescBy Prod.snd l).take 10

/-- Value of a key in an association list, `0` when absent
(`fill_value=0`). -/
def lookupQ {κ : Type} [DecidableEq κ] (l : List (κ × ℚ)) (k : κ) : ℚ :=
  match l.find? fun p => p.1 = k with
  | some p => p.2
  | none => 0

/-- `inflow.subtract(outflow, fill_value=0)`: aligned difference over the
union of the keys of both grouped sums. -/
def netMigration (outflow inflow : List (Value × ℚ)) : List (Value × ℚ) :=
  (dedupGo [] (outflow.map Prod.fst ++ inflow.map Prod.fst)).map fun k =>
    (k, lookupQ inflow k - lookupQ outflow k)

/-- The metrics dictionary built by `calculate_migration_metrics`. -/
structure MigrationMetrics where
  total_migration : ℚ
  top_origins : List (Value × ℚ)
  top_destinations : List (Value × ℚ)
  top_flows : List ((Value × Value) × ℚ)
  mean_migration : Option ℚ
  median_migration : Option ℚ
  std_migration : Option ℝ
  net_migration : List (Value × ℚ)

/-- `calculate_migration_metrics`: total, top-10 grouped sums, basic
statistics and net migration of the `migration_col` column. -/
noncomputable def calculate_migration_metrics (df : DataFrame)
    (origin_col destination_col migration_col : String) : MigrationMetrics :=
  let mig := getColD df migration_col
  let orig := getColD df origin_col
  let dest := getColD df destination_col
  let outflow := groupBySum orig mig
  let inflow := groupBySum dest mig
  { total_migration := nanSum mig
    top_origins := nlargest10 outflow
    top_destinations := nlargest10 inflow
    top_flows := nlargest10 (groupBySum (orig.zip dest) mig)
    mean_migration := nanMean mig
    median_migration := nanMedian mig
    std_migration := nanStd mig
    net_migration := netMigration outflow inflow }

/-- Claim C6: on a frame whose `migration_count` column holds the numbers
`qs` (every cell numeric), the `total_migration` entry of
`calculate_migration_metrics` is exactly the plain sum of `qs`. -/
theorem C6_total_migration_eq_sum (df : DataFrame) (o d : String) (qs : List ℚ)
    (hcol : "migration_count" ∈ df.cols)
    (hvals : getColD df "migration_count" = qs.map Value.num) :
    (calculate_migration_metrics df o d "migration_count").total_migration = qs.sum := by
  unfold calculate_migration_metrics
  simp only
  unfold nanSum
  rw [hvals, List.filterMap_map]
  have : (cellNum ∘ Value.num) = some := by
    funext q
    rfl
  rw [this, List.filterMap_some]

/-- Witness for C6 at a concrete input: a two-row frame whose
`migration_count` cells are `3` and `4`; the computed total is `3 + 4`. -/
theorem C6_total_migration_eq_sum_witness :
    (calculate_migration_metrics
        ⟨["migration_count"], [Dtype.int64], [[Value.num 3], [Value.num 4]]⟩
        "o" "d" "migration_count").total_migration = ([3, 4] : List ℚ).sum :=
  C6_total_migration_eq_sum
    ⟨["migration_count"], [Dtype.int64], [[Value.num 3], [Value.num 4]]⟩
    "o" "d" [3, 4] (by decide) (by decide)

/-! ## `optimize_dtypes` (`utils.py` lines 107-140)

Three passes over a copy of the frame, each driven by a `select_dtypes`
snapshot taken when the pass starts: int64 columns are downcast to the
smallest of int8/int16/int32 whose `iinfo` range contains both the column
minimum and maximum (a numpy `astype` wraps modulo `2^w`, so the guard is
what keeps the values exact; an empty column has `NaN` min/max and every
comparison with `NaN` is false, so it is never cast); float64 columns go
through `pd.to_numeric(..., downcast='float')`, embedded with an arbitrary
per-cell rounding `g` and applicability test `p` because no claim depends on
IEEE-754 float32 semantics; object columns become `category` when fewer than
half their cells are distinct — on a zero-row frame that ratio divides by
`len(df) = 0` and raises, so the embedding returns `none` there.  Columns
are addressed by position (pandas addresses them by label; the embedding
assumes what pandas needs anyway, that labels are unambiguous). -/

/-- The cells of the column at position `i`, top to bottom. -/
def colVals (df : DataFrame) (i : ℕ) : List Value :=
  df.rows.map fun r => r.getD i Value.null

/-- The numeric cells of the column at position `i`. -/
def colNums (df : DataFrame) (i : ℕ) : List ℚ :=
  (colVals df i).filterMap cellNum

/-- The dtype of the column at position `i` (`object` out of range). -/
def dtypeAt (df : DataFrame) (i : ℕ) : Dtype :=
  df.dtypes.getD i Dtype.object

/-- `df.select_dtypes(include=[dt]).columns`, as positions. -/
def selectDtypeIdx (df : DataFrame) (dt : Dtype) : List ℕ :=
  (List.range df.dtypes.length).filter fun i => dtypeAt df i = dt

/-- `np.iinfo` lower bound of a `w`-bit signed integer.  (The power is taken
in `ℕ` and cast, so that concrete instances evaluate by `decide`.) -/
def intLo (w : ℕ) : ℚ := -((2 ^ (w - 1) : ℕ) : ℚ)

/-- `np.iinfo` upper bound of a `w`-bit signed integer. -/
def intHi (w : ℕ) : ℚ := ((2 ^ (w - 1) - 1 : ℕ) : ℚ)

/-- numpy `astype` to a `w`-bit signed integer: wrap modulo `2 ^ w` into the
signed range. -/
def wrapInt (w : ℕ) (n : Int) : Int :=
  (n + ((2 ^ (w - 1) : ℕ) : ℤ)) % ((2 ^ w : ℕ) : ℤ) - ((2 ^ (w - 1) : ℕ) : ℤ)

/-- `astype` on one cell of an integer column. -/
def castCellInt (w : ℕ) : Value → Value
  | .num q => if q.den = 1 then .num (wrapInt w q.num) else .num q
  | v => v

/-- The downcast decision of the int64 loop: the smallest of int8, int16,
int32 whose range contains both `col.min()` and `col.max()`, if any; no
decision on an empty column (`NaN` min/max). -/
def downcastTarget (vs : List Value) : Option (Dtype × ℕ) :=
  match (vs.filterMap cellNum).min?, (vs.filterMap cellNum).max? with
  | some lo, some hi =>
    if intLo 8 ≤ lo ∧ hi ≤ intHi 8 then some (Dtype.int8, 8)
    else if intLo 16 ≤ lo ∧ hi ≤ intHi 16 then some (Dtype.int16, 16)
    else if intLo 32 ≤ lo ∧ hi ≤ intHi 32 then some (Dtype.int32, 32)
    else none
  | _, _ => none

/-- One iteration of the int64 loop on the column at position `i`. -/
def optimizeIntCol (df : DataFrame) (i : ℕ) : DataFrame :=
  match downcastTarget (colVals df i) with
  | some (dt, w) =>
    { df with
      dtypes := df.dtypes.set i dt
      rows := df.rows.map fun r => r.set i (castCellInt w (r.getD i Value.null)) }
  | none => df

/-- One iteration of the float64 loop: `pd.to_numeric(col, downcast='float')`
downcasts to float32 when the parameter test `p` accepts the cells, rounding
each cell by the parameter `g`. -/
def optimizeFloatCol (g : Value → Value) (p : List Value → Bool)
    (df : DataFrame) (i : ℕ) : DataFrame :=
  if p (colVals df i) then
    { df with
      dtypes := df.dtypes.set i Dtype.float32
      rows := df.rows.map fun r => r.set i (g (r.getD i Value.null)) }
  else df

/-- `Series.nunique()`: distinct non-missing cells. -/
def nuniqueCount (vs : List Value) : ℕ :=
  (dedupGo [] (vs.filter fun v => v ≠ Value.null)).length

/-- One iteration of the object loop: less than 50 percent unique cells
turns the column into a `category` (cells untouched). -/
def optimizeObjCol (df : DataFrame) (i : ℕ) : DataFrame :=
  if 2 * nuniqueCount (colVals df i) < df.rows.length then
    { df with dtypes := df.dtypes.set i Dtype.category }
  else df

/-- `optimize_dtypes`: the three passes in order; `none` embeds the
`ZeroDivisionError` of the uniqueness ratio on a zero-row frame with an
object column. -/
def optimize_dtypes (g : Value → Value) (p : List Value → Bool)
    (df : DataFrame) : Option DataFrame :=
  let df1 := (selectDtypeIdx df Dtype.int64).foldl optimizeIntCol df
  let df2 := (selectDtypeIdx df1 Dtype.float64).foldl (optimizeFloatCol g p) df1
  if selectDtypeIdx df2 Dtype.object ≠ [] ∧ df2.rows.length = 0 then none
  else some ((selectDtypeIdx df2 Dtype.object).foldl optimizeObjCol df2)

/-- Every numeric cell within the `w`-bit signed range. -/
def rangeOK (vs : List Value) (w : ℕ) : Prop :=
  ∀ q ∈ vs.filterMap cellNum, intLo w ≤ q ∧ q ≤ intHi w

/-- Every cell an integer (the invariant of a pandas int64 column, which
cannot hold `NaN` or strings). -/
def IntCells (vs : List Value) : Prop :=
  ∀ v ∈ vs, ∃ n : Int, v = Value.num (n : ℚ)

/-! ### Properties of dtype optimization -/

instance : Std.Antisymm fun (x1 x2 : ℚ) => x1 ≤ x2 :=
  ⟨fun {a b : ℚ} (h1 : a ≤ b) (h2 : b ≤ a) => le_antisymm h1 h2⟩

lemma min?_le_mem {l : List ℚ} {m : ℚ} (h : l.min? = some m) {y : ℚ}
    (hy : y ∈ l) : m ≤ y := by
  have h2 := (@List.min?_eq_some_iff ℚ m _ _ _ le_refl
    (fun a b => min_choice a b) (fun a b c => le_min_iff) l).mp h
  exact h2.2 y hy

lemma mem_le_max? {l : List ℚ} {m : ℚ} (h : l.max? = some m) {y : ℚ}
    (hy : y ∈ l) : y ≤ m := by
  have h2 := (@List.max?_eq_some_iff ℚ m _ _ _ le_refl
    (fun a b => max_choice a b) (fun a b c => max_le_iff) l).mp h
  exact h2.2 y hy

lemma getD_set_ne {α : Type} (l : List α) (d : α) {i j : ℕ} (v : α)
    (h : i ≠ j) : (l.set i v).getD j d = l.getD j d := by
  simp [List.getD_eq_getElem?_getD, List.getElem?_set_ne h]

lemma downcastTarget_range {vs : List Value} {dt : Dtype} {w : ℕ}
    (h : downcastTarget vs = some (dt, w)) : rangeOK vs w := by
  intro q hq
  unfold downcastTarget at h
  cases hmin : (vs.filterMap cellNum).min? with
  | none => rw [hmin] at h; simp at h
  | some lo =>
    cases hmax : (vs.filterMap cellNum).max? with
    | none => rw [hmin, hmax] at h; simp at h
    | some hi =>
      rw [hmin, hmax] at h
      dsimp only at h
      have hlo := min?_le_mem hmin hq
      have hhi := mem_le_max? hmax hq
      split_ifs at h with h8 h16 h32
      · cases h; exact ⟨le_trans h8.1 hlo, le_trans hhi h8.2⟩
      · cases h; exact ⟨le_trans h16.1 hlo, le_trans hhi h16.2⟩
      · cases h; exact ⟨le_trans h32.1 hlo, le_trans hhi h32.2⟩

lemma downcastTarget_cases {vs : List Value} {dt : Dtype} {w : ℕ}
    (h : downcastTarget vs = some (dt, w)) :
    (dt = Dtype.int8 ∧ w = 8) ∨ (dt = Dtype.int16 ∧ w = 16) ∨
    (dt = Dtype.int32 ∧ w = 32) := by
  unfold downcastTarget at h
  cases hmin : (vs.filterMap cellNum).min? with
  | none => rw [hmin] at h; simp at h
  | some lo =>
    cases hmax : (vs.filterMap cellNum).max? with
    | none => rw [hmin, hmax] at h; simp at h
    | some hi =>
      rw [hmin, hmax] at h
      dsimp only at h
      split_ifs at h with h8 h16 h32
      · cases h; exact Or.inl ⟨rfl, rfl⟩
      · cases h; exact Or.inr (Or.inl ⟨rfl, rfl⟩)
      · cases h; exact Or.inr (Or.inr ⟨rfl, rfl⟩)

lemma wrapInt_eq_self {w : ℕ} (hw : 1 ≤ w) {n : Int}
    (h1 : intLo w ≤ (n : ℚ)) (h2 : (n : ℚ) ≤ intHi w) : wrapInt w n = n := by
  unfold intLo at h1
  unfold intHi at h2
  have h2p : (1 : ℕ) ≤ 2 ^ (w - 1) := Nat.one_le_two_pow
  have hb1 : -((2 ^ (w - 1) : ℕ) : ℤ) ≤ n := by exact_mod_cast h1
  have hb2n : n ≤ ((2 ^ (w - 1) - 1 : ℕ) : ℤ) := by exact_mod_cast h2
  have hpow : ((2 ^ (w - 1) : ℕ) : ℤ) + ((2 ^ (w - 1) : ℕ) : ℤ) = ((2 ^ w : ℕ) : ℤ) := by
    have hw1 : w - 1 + 1 = w := Nat.succ_pred_eq_of_pos hw
    push_cast
    rw [← two_mul, ← pow_succ', hw1]
  unfold wrapInt
  rw [Int.emod_eq_of_lt (by omega) (by omega)]
  omega

lemma optimizeIntCol_cols (df : DataFrame) (i : ℕ) :
    (optimizeIntCol df i).cols = df.cols := by
  unfold optimizeIntCol
  cases downcastTarget (colVals df i) with
  | none => rfl
  | some dtw => cases dtw; rfl

lemma optimizeIntCol_rows_length (df : DataFrame) (i : ℕ) :
    (optimizeIntCol df i).rows.length = df.rows.length := by
  unfold optimizeIntCol
  cases downcastTarget (colVals df i) with
  | none => rfl
  | some dtw => cases dtw; simp

lemma optimizeIntCol_ne (df : DataFrame) {i j : ℕ} (hij : j ≠ i) :
    colVals (optimizeIntCol df i) j = colVals df j ∧
    dtypeAt (optimizeIntCol df i) j = dtypeAt df j := by
  unfold optimizeIntCol
  cases downcastTarget (colVals df i) with
  | none => exact ⟨rfl, rfl⟩
  | some dtw =>
    cases dtw with
    | mk dt w =>
      constructor
      · unfold colVals
        simp only [List.map_map]
        exact List.map_congr_left fun r _ =>
          getD_set_ne r Value.null _ (fun e => hij e.symm)
      · unfold dtypeAt
        exact getD_set_ne df.dtypes Dtype.object dt (fun e => hij e.symm)

lemma set_getD_self (r : Row) (i : ℕ) (f : Value → Value) :
    (r.set i (f (r.getD i Value.null))).getD i Value.null =
      f (r.getD i Value.null) ∨
    ((r.set i (f (r.getD i Value.null))).getD i Value.null = Value.null ∧
      r.getD i Value.null = Value.null) := by
  by_cases hlen : i < r.length
  · left
    simp [List.getD_eq_getElem?_getD, List.getElem?_set_self hlen]
  · right
    have hoob : r.length ≤ i := le_of_not_lt hlen
    have h1 : r.getD i Value.null = Value.null := by
      rw [List.getD_eq_getElem?_getD, List.getElem?_eq_none hoob]
      rfl
    have h2 : (r.set i (f (r.getD i Value.null))).length ≤ i := by
      simpa using hoob
    refine ⟨?_, h1⟩
    rw [List.getD_eq_getElem?_getD, List.getElem?_eq_none h2]
    rfl

lemma optimizeIntCol_self (df : DataFrame) (i : ℕ)
    (hcells : IntCells (colVals df i)) :
    colVals (optimizeIntCol df i) i = colVals df i ∧
    (dtypeAt (optimizeIntCol df i) i = dtypeAt df i ∨
      ∃ w, dtypeAt (optimizeIntCol df i) i ∈
          [Dtype.int8, Dtype.int16, Dtype.int32] ∧
        ((dtypeAt (optimizeIntCol df i) i = Dtype.int8 → w = 8) ∧
         (dtypeAt (optimizeIntCol df i) i = Dtype.int16 → w = 16) ∧
         (dtypeAt (optimizeIntCol df i) i = Dtype.int32 → w = 32)) ∧
        rangeOK (colVals df i) w) := by
  unfold optimizeIntCol
  cases hdc : downcastTarget (colVals df i) with
  | none => exact ⟨rfl, Or.inl rfl⟩
  | some dtw =>
    cases dtw with
    | mk dt w =>
      have hrange := downcastTarget_range hdc
      have hw : 1 ≤ w := by
        rcases downcastTarget_cases hdc with ⟨_, rfl⟩ | ⟨_, rfl⟩ | ⟨_, rfl⟩ <;> omega
      constructor
      · unfold colVals
        simp only [List.map_map]
        refine List.map_congr_left fun r hr => ?_
        rcases set_getD_self r i (castCellInt w) with he | ⟨he, hnull⟩
        · rw [Function.comp_apply, he]
          have hmem : r.getD i Value.null ∈ colVals df i :=
            List.mem_map.mpr ⟨r, hr, rfl⟩
          obtain ⟨n, hn⟩ := hcells _ hmem
          rw [hn]
          simp only [castCellInt]
          rw [if_pos (by simp)]
          have hq : ((n : Int) : ℚ) ∈ (colVals df i).filterMap cellNum := by
            refine List.mem_filterMap.mpr ⟨Value.num (n : ℚ), ?_, rfl⟩
            rw [← hn]; exact hmem
          obtain ⟨hlo, hhi⟩ := hrange _ hq
          rw [Rat.num_intCast, wrapInt_eq_self hw hlo hhi]
        · rw [Function.comp_apply, he, hnull]
      · by_cases hlen : i < df.dtypes.length
        · right
          refine ⟨w, ?_, ?_, hrange⟩
          · unfold dtypeAt
            rw [List.getD_eq_getElem?_getD, List.getElem?_set_self (by simpa using hlen)]
            rcases downcastTarget_cases hdc with ⟨rfl, _⟩ | ⟨rfl, _⟩ | ⟨rfl, _⟩ <;> simp
          · unfold dtypeAt
            rw [List.getD_eq_getElem?_getD, List.getElem?_set_self (by simpa using hlen)]
            rcases downcastTarget_cases hdc with ⟨rfl, rfl⟩ | ⟨rfl, rfl⟩ | ⟨rfl, rfl⟩ <;>
              refine ⟨fun h => ?_, fun h => ?_, fun h => ?_⟩ <;> first | rfl | (cases h)
        · left
          unfold dtypeAt
          have hoob : df.dtypes.length ≤ i := le_of_not_lt hlen
          have h2 : (df.dtypes.set i dt).length ≤ i := by simpa using hoob
          simp [List.getD_eq_getElem?_getD, List.getElem?_eq_none hoob,
            List.getElem?_eq_none h2]

/-- What the int64 pass may do to the column at `j`: leave its dtype alone,
or downcast it to a small signed type whose range provably contains every
cell. -/
def DowncastSound (df out : DataFrame) (j : ℕ) : Prop :=
  dtypeAt out j = dtypeAt df j ∨
    (dtypeAt out j ∈ [Dtype.int8, Dtype.int16, Dtype.int32] ∧
     (dtypeAt out j = Dtype.int8 → rangeOK (colVals df j) 8) ∧
     (dtypeAt out j = Dtype.int16 → rangeOK (colVals df j) 16) ∧
     (dtypeAt out j = Dtype.int32 → rangeOK (colVals df j) 32))

lemma downcastSound_of_step (df : DataFrame) (i : ℕ)
    (hcells : IntCells (colVals df i)) :
    DowncastSound df (optimizeIntCol df i) i := by
  rcases (optimizeIntCol_self df i hcells).2 with hsame | ⟨w, hmem3, ⟨p8, p16, p32⟩, hrange⟩
  · exact Or.inl hsame
  · refine Or.inr ⟨hmem3, fun h => ?_, fun h => ?_, fun h => ?_⟩
    · have := p8 h; subst this; exact hrange
    · have := p16 h; subst this; exact hrange
    · have := p32 h; subst this; exact hrange

lemma foldInt_spec : ∀ (S : List ℕ) (df : DataFrame), S.Nodup →
    (∀ i ∈ S, IntCells (colVals df i)) →
    (S.foldl optimizeIntCol df).cols = df.cols ∧
    (S.foldl optimizeIntCol df).rows.length = df.rows.length ∧
    (∀ j, j ∉ S → colVals (S.foldl optimizeIntCol df) j = colVals df j ∧
      dtypeAt (S.foldl optimizeIntCol df) j = dtypeAt df j) ∧
    (∀ j, j ∈ S → colVals (S.foldl optimizeIntCol df) j = colVals df j ∧
      DowncastSound df (S.foldl optimizeIntCol df) j) := by
  intro S
  induction S with
  | nil =>
    intro df _ _
    exact ⟨rfl, rfl, fun j _ => ⟨rfl, rfl⟩, fun j hj => absurd hj (by simp)⟩
  | cons i S2 ih =>
    intro df hnd hcells
    have hni : i ∉ S2 := (List.nodup_cons.mp hnd).1
    have hnd2 := (List.nodup_cons.mp hnd).2
    have hfold : (i :: S2).foldl optimizeIntCol df =
        S2.foldl optimizeIntCol (optimizeIntCol df i) := rfl
    have hcells2 : ∀ k ∈ S2, IntCells (colVals (optimizeIntCol df i) k) := by
      intro k hk
      have hki : k ≠ i := fun e => hni (e ▸ hk)
      rw [(optimizeIntCol_ne df hki).1]
      exact hcells k (by simp [hk])
    obtain ⟨ihcols, ihlen, ihnot, ihmem⟩ := ih (optimizeIntCol df i) hnd2 hcells2
    refine ⟨?_, ?_, ?_, ?_⟩
    · rw [hfold, ihcols, optimizeIntCol_cols]
    · rw [hfold, ihlen, optimizeIntCol_rows_length]
    · intro j hj
      have hji : j ≠ i := fun e => hj (by simp [e])
      have hjS2 : j ∉ S2 := fun h2 => hj (by simp [h2])
      obtain ⟨e1, e2⟩ := ihnot j hjS2
      obtain ⟨f1, f2⟩ := optimizeIntCol_ne df hji
      exact ⟨by rw [hfold, e1, f1], by rw [hfold, e2, f2]⟩
    · intro j hj
      rcases List.mem_cons.mp hj with rfl | hjS2
      · obtain ⟨e1, e2⟩ := ihnot j hni
        have hself := optimizeIntCol_self df j (hcells j (by simp))
        refine ⟨by rw [hfold, e1, hself.1], ?_⟩
        rcases downcastSound_of_step df j (hcells j (by simp)) with hsame |
          ⟨hmem3, h8, h16, h32⟩
        · left; rw [hfold, e2, hsame]
        · right
          rw [hfold, e2]
          exact ⟨hmem3, h8, h16, h32⟩
      · have hji : j ≠ i := fun e => hni (e ▸ hjS2)
        obtain ⟨f1, f2⟩ := optimizeIntCol_ne df hji
        obtain ⟨e1, e2⟩ := ihmem j hjS2
        refine ⟨by rw [hfold, e1, f1], ?_⟩
        rcases e2 with hsame | ⟨hmem3, h8, h16, h32⟩
        · left; rw [hfold, hsame, f2]
        · right
          rw [hfold]
          rw [f1] at h8 h16 h32
          exact ⟨hmem3, h8, h16, h32⟩

lemma optimizeFloatCol_cols (g : Value → Value) (p : List Value → Bool)
    (df : DataFrame) (i : ℕ) : (optimizeFloatCol g p df i).cols = df.cols := by
  unfold optimizeFloatCol
  split_ifs <;> rfl

lemma optimizeFloatCol_rows_length (g : Value → Value) (p : List Value → Bool)
    (df : DataFrame) (i : ℕ) :
    (optimizeFloatCol g p df i).rows.length = df.rows.length := by
  unfold optimizeFloatCol
  split_ifs <;> simp

lemma optimizeFloatCol_ne (g : Value → Value) (p : List Value → Bool)
    (df : DataFrame) {i j : ℕ} (hij : j ≠ i) :
    colVals (optimizeFloatCol g p df i) j = colVals df j ∧
    dtypeAt (optimizeFloatCol g p df i) j = dtypeAt df j := by
  unfold optimizeFloatCol
  split_ifs with hp
  · constructor
    · unfold colVals
      simp only [List.map_map]
      exact List.map_congr_left fun r _ =>
        getD_set_ne r Value.null _ (fun e => hij e.symm)
    · unfold dtypeAt
      exact getD_set_ne df.dtypes Dtype.object _ (fun e => hij e.symm)
  · exact ⟨rfl, rfl⟩

lemma foldFloat_spec (g : Value → Value) (p : List Value → Bool) :
    ∀ (S : List ℕ) (df : DataFrame),
    (S.foldl (optimizeFloatCol g p) df).cols = df.cols ∧
    (S.foldl (optimizeFloatCol g p) df).rows.length = df.rows.length ∧
    (∀ j, j ∉ S → colVals (S.foldl (optimizeFloatCol g p) df) j = colVals df j ∧
      dtypeAt (S.foldl (optimizeFloatCol g p) df) j = dtypeAt df j) := by
  intro S
  induction S with
  | nil => exact fun df => ⟨rfl, rfl, fun j _ => ⟨rfl, rfl⟩⟩
  | cons i S2 ih =>
    intro df
    have hfold : (i :: S2).foldl (optimizeFloatCol g p) df =
        S2.foldl (optimizeFloatCol g p) (optimizeFloatCol g p df i) := rfl
    obtain ⟨ihcols, ihlen, ihnot⟩ := ih (optimizeFloatCol g p df i)
    refine ⟨by rw [hfold, ihcols, optimizeFloatCol_cols],
      by rw [hfold, ihlen, optimizeFloatCol_rows_length], ?_⟩
    intro j hj
    have hji : j ≠ i := fun e => hj (by simp [e])
    have hjS2 : j ∉ S2 := fun h2 => hj (by simp [h2])
    obtain ⟨e1, e2⟩ := ihnot j hjS2
    obtain ⟨f1, f2⟩ := optimizeFloatCol_ne g p df hji
    exact ⟨by rw [hfold, e1, f1], by rw [hfold, e2, f2]⟩

lemma optimizeObjCol_rows (df : DataFrame) (i : ℕ) :
    (optimizeObjCol df i).rows = df.rows ∧ (optimizeObjCol df i).cols = df.cols := by
  unfold optimizeObjCol
  split_ifs <;> exact ⟨rfl, rfl⟩

lemma optimizeObjCol_dtypeAt_ne (df : DataFrame) {i j : ℕ} (hij : j ≠ i) :
    dtypeAt (optimizeObjCol df i) j = dtypeAt df j := by
  unfold optimizeObjCol
  split_ifs with hp
  · unfold dtypeAt
    exact getD_set_ne df.dtypes Dtype.object _ (fun e => hij e.symm)
  · rfl

lemma foldObj_spec : ∀ (S : List ℕ) (df : DataFrame),
    (S.foldl optimizeObjCol df).rows = df.rows ∧
    (S.foldl optimizeObjCol df).cols = df.cols ∧
    (∀ j, j ∉ S → dtypeAt (S.foldl optimizeObjCol df) j = dtypeAt df j) := by
  intro S
  induction S with
  | nil => exact fun df => ⟨rfl, rfl, fun j _ => rfl⟩
  | cons i S2 ih =>
    intro df
    have hfold : (i :: S2).foldl optimizeObjCol df =
        S2.foldl optimizeObjCol (optimizeObjCol df i) := rfl
    obtain ⟨ihrows, ihcols, ihnot⟩ := ih (optimizeObjCol df i)
    refine ⟨by rw [hfold, ihrows, (optimizeObjCol_rows df i).1],
      by rw [hfold, ihcols, (optimizeObjCol_rows df i).2], ?_⟩
    intro j hj
    have hji : j ≠ i := fun e => hj (by simp [e])
    have hjS2 : j ∉ S2 := fun h2 => hj (by simp [h2])
    rw [hfold, ihnot j hjS2, optimizeObjCol_dtypeAt_ne df hji]

lemma colVals_congr {df1 df2 : DataFrame} (h : df1.rows = df2.rows) (j : ℕ) :
    colVals df1 j = colVals df2 j := by
  unfold colVals
  rw [h]

lemma mem_selectDtypeIdx {df : DataFrame} {dt : Dtype} {j : ℕ} :
    j ∈ selectDtypeIdx df dt ↔ j < df.dtypes.length ∧ dtypeAt df j = dt := by
  simp [selectDtypeIdx, List.mem_filter]

lemma lt_length_of_dtypeAt {df : DataFrame} {j : ℕ} {dt : Dtype}
    (h : dtypeAt df j = dt) (hne : dt ≠ Dtype.object) : j < df.dtypes.length := by
  by_contra hge
  have : dtypeAt df j = Dtype.object := by
    unfold dtypeAt
    rw [List.getD_eq_getElem?_getD, List.getElem?_eq_none (le_of_not_lt hge)]
    rfl
  exact hne (h ▸ this.symm ▸ rfl)

/-- Claim C10: on every well-typed frame (each int64 column holds integers)
where `optimize_dtypes` returns, the shape is preserved — same column names,
same number of rows — and every 64-bit integer column keeps each of its cell
values exactly; such a column ends with dtype int64, int8, int16 or int32,
and it is downcast to int8/int16/int32 only when every cell (hence both the
column minimum and maximum) lies within that target range.  The float and
category passes are quantified over the float32 rounding `g` and the
downcast test `p`. -/
theorem C10_optimize_dtypes_shape_and_int_exact (g : Value → Value)
    (p : List Value → Bool) (df out : DataFrame)
    (hint : ∀ i, i < df.dtypes.length → dtypeAt df i = Dtype.int64 →
      IntCells (colVals df i))
    (hout : optimize_dtypes g p df = some out) :
    out.cols = df.cols ∧
    out.rows.length = df.rows.length ∧
    (∀ i, dtypeAt df i = Dtype.int64 →
      colVals out i = colVals df i ∧
      (dtypeAt out i = Dtype.int64 ∨
        dtypeAt out i ∈ [Dtype.int8, Dtype.int16, Dtype.int32]) ∧
      (dtypeAt out i = Dtype.int8 → rangeOK (colVals df i) 8) ∧
      (dtypeAt out i = Dtype.int16 → rangeOK (colVals df i) 16) ∧
      (dtypeAt out i = Dtype.int32 → rangeOK (colVals df i) 32)) := by
  unfold optimize_dtypes at hout
  have hS1nd : (selectDtypeIdx df Dtype.int64).Nodup :=
    (List.nodup_range _).filter _
  have hcells1 : ∀ i ∈ selectDtypeIdx df Dtype.int64, IntCells (colVals df i) := by
    intro i hi
    obtain ⟨hlt, hdt⟩ := mem_selectDtypeIdx.mp hi
    exact hint i hlt hdt
  obtain ⟨i1cols, i1len, i1not, i1mem⟩ :=
    foldInt_spec (selectDtypeIdx df Dtype.int64) df hS1nd hcells1
  set df1 := (selectDtypeIdx df Dtype.int64).foldl optimizeIntCol df with hdf1
  obtain ⟨f2cols, f2len, f2not⟩ :=
    foldFloat_spec g p (selectDtypeIdx df1 Dtype.float64) df1
  set df2 := (selectDtypeIdx df1 Dtype.float64).foldl (optimizeFloatCol g p) df1
    with hdf2
  obtain ⟨o3rows, o3cols, o3not⟩ :=
    foldObj_spec (selectDtypeIdx df2 Dtype.object) df2
  by_cases hcond : selectDtypeIdx df2 Dtype.object ≠ [] ∧ df2.rows.length = 0
  · rw [if_pos hcond] at hout
    cases hout
  · rw [if_neg hcond] at hout
    have hdefout : out = (selectDtypeIdx df2 Dtype.object).foldl optimizeObjCol df2 :=
      (Option.some.injEq _ _ ▸ hout).symm
    subst hdefout
    refine ⟨by rw [o3cols, f2cols, i1cols], by rw [o3rows, f2len, i1len], ?_⟩
    intro i hdt
    have hlt : i < df.dtypes.length :=
      lt_length_of_dtypeAt hdt (by intro h; cases h)
    have hiS1 : i ∈ selectDtypeIdx df Dtype.int64 :=
      mem_selectDtypeIdx.mpr ⟨hlt, hdt⟩
    obtain ⟨v1, hds⟩ := i1mem i hiS1
    have hd1cases : dtypeAt df1 i = Dtype.int64 ∨
        dtypeAt df1 i ∈ [Dtype.int8, Dtype.int16, Dtype.int32] := by
      rcases hds with hsame | ⟨hmem3, _, _, _⟩
      · exact Or.inl (hsame.trans hdt)
      · exact Or.inr hmem3
    have hd1list : dtypeAt df1 i = Dtype.int64 ∨ dtypeAt df1 i = Dtype.int8 ∨
        dtypeAt df1 i = Dtype.int16 ∨ dtypeAt df1 i = Dtype.int32 := by
      rcases hd1cases with h1 | h1
      · exact Or.inl h1
      · simp only [List.mem_cons, List.not_mem_nil, or_false] at h1
        exact Or.inr h1
    have hne64 : dtypeAt df1 i ≠ Dtype.float64 := by
      rcases hd1list with h1 | h1 | h1 | h1 <;> rw [h1] <;> decide
    have hneobj : dtypeAt df1 i ≠ Dtype.object := by
      rcases hd1list with h1 | h1 | h1 | h1 <;> rw [h1] <;> decide
    have hiS2 : i ∉ selectDtypeIdx df1 Dtype.float64 := by
      intro hmem
      exact hne64 (mem_selectDtypeIdx.mp hmem).2
    obtain ⟨v2, d2⟩ := f2not i hiS2
    have hiS3 : i ∉ selectDtypeIdx df2 Dtype.object := by
      intro hmem
      have h2 := (mem_selectDtypeIdx.mp hmem).2
      rw [d2] at h2
      exact hneobj h2
    have v3 := colVals_congr o3rows i
    have d3 := o3not i hiS3
    refine ⟨by rw [v3, v2, v1], ?_, ?_, ?_, ?_⟩
    · rw [d3, d2]
      exact hd1cases
    · intro h8
      rw [d3, d2] at h8
      rcases hds with hsame | ⟨_, r8, _, _⟩
      · rw [hsame, hdt] at h8; cases h8
      · exact r8 h8
    · intro h16
      rw [d3, d2] at h16
      rcases hds with hsame | ⟨_, _, r16, _⟩
      · rw [hsame, hdt] at h16; cases h16
      · exact r16 h16
    · intro h32
      rw [d3, d2] at h32
      rcases hds with hsame | ⟨_, _, _, r32⟩
      · rw [hsame, hdt] at h32; cases h32
      · exact r32 h32

/-- Witness for C10 at a concrete input: a one-column int64 frame holding
`5`, which downcasts to int8 with the value kept exactly. -/
theorem C10_optimize_dtypes_shape_and_int_exact_witness :
    optimize_dtypes id (fun _ => false)
        ⟨["a"], [Dtype.int64], [[Value.num 5]]⟩ =
      some ⟨["a"], [Dtype.int8], [[Value.num 5]]⟩ ∧
    (⟨["a"], [Dtype.int8], [[Value.num 5]]⟩ : DataFrame).cols =
      (⟨["a"], [Dtype.int64], [[Value.num 5]]⟩ : DataFrame).cols := by
  refine ⟨by decide, ?_⟩
  refine (C10_optimize_dtypes_shape_and_int_exact id (fun _ => false)
    ⟨["a"], [Dtype.int64], [[Value.num 5]]⟩
    ⟨["a"], [Dtype.int8], [[Value.num 5]]⟩ ?_ (by decide)).1
  intro i hlt _
  have hi0 : i = 0 := by
    simp only [List.length_cons, List.length_nil] at hlt
    omega
  subst hi0
  intro v hv
  rw [show colVals ⟨["a"], [Dtype.int64], [[Value.num 5]]⟩ 0 = [Value.num 5] from by decide]
    at hv
  rcases List.mem_singleton.mp hv with rfl
  exact ⟨5, by decide⟩

/-! ## `DataLoader.load_csv` (`data.py` lines 31-57)

After the directory resolution and existence check (I/O), the call is
`pd.read_csv(file_path)`.  The parse of an unquoted CSV text is embedded at
the character level: split into lines, drop blank lines
(`skip_blank_lines=True`), split each line on commas; the first line is the
header.  pandas renames duplicate header names (`a, a` becomes `a, a.1`),
embedded by `mangleDup`; integer-looking fields are type-inferred and empty
fields read as missing. -/

/-- Split a character list on a separator; never returns `[]` (an empty
input is one empty field). -/
def splitOnChar (sep : Char) : List Char → List (List Char)
  | [] => [[]]
  | c :: cs =>
    if c = sep then [] :: splitOnChar sep cs
    else
      match splitOnChar sep cs with
      | [] => [[c]]
      | p :: ps => (c :: p) :: ps

/-- Join character lists with a separator: the inverse of `splitOnChar` on
separator-free pieces. -/
def joinWith (sep : Char) : List (List Char) → List Char
  | [] => []
  | [p] => p
  | p :: q :: qs => p ++ sep :: joinWith sep (q :: qs)

/-- pandas duplicate-column mangling: the `k`-th repetition of a header name
gets `.k` appended. -/
def mangleGo (seen : List String) : List String → List String
  | [] => []
  | n :: ns =>
    (if seen.count n = 0 then n else n ++ "." ++ toString (seen.count n)) ::
      mangleGo (n :: seen) ns

/-- Mangle duplicate header names, left to right. -/
def mangleDup (names : List String) : List String :=
  mangleGo [] names

/-- `pd.read_csv` cell inference on one unquoted field: integer literals
become numbers, the empty field is missing, anything else is a string. -/
def inferCell (s : String) : Value :=
  match s.toInt? with
  | some n => Value.num (n : ℚ)
  | none => if s = "" then Value.null else Value.str s

/-- The parse of the CSV text: non-blank lines, header first, duplicate
names mangled, every field of every record a cell; `none` is the
`EmptyDataError` on a file with no content. -/
def parseCsvChars (content : List Char) : Option DataFrame :=
  match (splitOnChar '\n' content).filter (fun l => l ≠ []) with
  | [] => none
  | header :: records =>
    let names := (splitOnChar ',' header).map fun cs => String.mk cs
    some
      { cols := mangleDup names
        dtypes := names.map fun _ => Dtype.object
        rows := records.map fun line =>
          (splitOnChar ',' line).map fun cs => inferCell (String.mk cs) }

/-- `DataLoader.load_csv`, past its I/O: `pd.read_csv` on the file text. -/
def load_csv (content : String) : Option DataFrame :=
  parseCsvChars content.data

/-- Serialization of a header and records into CSV text, to state what "a
CSV file with these rows and columns" means. -/
def serializeCsv (names : List String) (records : List (List String)) : String :=
  String.mk (joinWith '\n'
    (joinWith ',' (names.map String.data) ::
      records.map fun r => joinWith ',' (r.map String.data)))

/-! ### Properties of the CSV parse -/

lemma splitOnChar_ne_nil (sep : Char) (cs : List Char) :
    splitOnChar sep cs ≠ [] := by
  cases cs with
  | nil => simp [splitOnChar]
  | cons c cs =>
    unfold splitOnChar
    by_cases h : c = sep
    · simp [h]
    · rw [if_neg h]
      cases splitOnChar sep cs <;> simp

lemma splitOnChar_of_not_mem {sep : Char} {cs : List Char} (h : sep ∉ cs) :
    splitOnChar sep cs = [cs] := by
  induction cs with
  | nil => rfl
  | cons c cs ih =>
    unfold splitOnChar
    have hc : ¬c = sep := fun e => h (e ▸ List.mem_cons_self c cs)
    rw [if_neg hc, ih fun hm => h (List.mem_cons_of_mem c hm)]

lemma splitOnChar_append {sep : Char} {p : List Char} (rest : List Char)
    (hp : sep ∉ p) :
    splitOnChar sep (p ++ sep :: rest) = p :: splitOnChar sep rest := by
  induction p with
  | nil => simp [splitOnChar]
  | cons c p ih =>
    have hc : ¬c = sep := fun e => hp (e ▸ List.mem_cons_self c p)
    have hrec := ih fun hm => hp (List.mem_cons_of_mem c hm)
    show splitOnChar sep (c :: (p ++ sep :: rest)) = (c :: p) :: splitOnChar sep rest
    rw [splitOnChar, if_neg hc, hrec]

lemma joinWith_split {sep : Char} :
    ∀ {css : List (List Char)}, css ≠ [] → (∀ cs ∈ css, sep ∉ cs) →
      splitOnChar sep (joinWith sep css) = css := by
  intro css
  induction css with
  | nil => intro h; exact absurd rfl h
  | cons p ps ih =>
    intro _ hsep
    cases ps with
    | nil =>
      show splitOnChar sep (joinWith sep [p]) = [p]
      rw [joinWith]
      exact splitOnChar_of_not_mem (hsep p (by simp))
    | cons q qs =>
      rw [joinWith]
      rw [splitOnChar_append _ (hsep p (by simp))]
      rw [ih (by simp) fun cs hm => hsep cs (List.mem_cons_of_mem p hm)]

lemma mem_joinWith {sep c : Char} :
    ∀ {css : List (List Char)}, c ∈ joinWith sep css →
      c = sep ∨ ∃ cs ∈ css, c ∈ cs := by
  intro css
  induction css with
  | nil => intro h; simp [joinWith] at h
  | cons p ps ih =>
    intro h
    cases ps with
    | nil =>
      rw [joinWith] at h
      exact Or.inr ⟨p, by simp, h⟩
    | cons q qs =>
      rw [joinWith] at h
      rcases List.mem_append.mp h with hp | hrest
      · exact Or.inr ⟨p, by simp, hp⟩
      · rcases List.mem_cons.mp hrest with rfl | hjoin
        · exact Or.inl rfl
        · rcases ih hjoin with hs | ⟨cs, hcs, hc⟩
          · exact Or.inl hs
          · exact Or.inr ⟨cs, List.mem_cons_of_mem p hcs, hc⟩

lemma mangleGo_of_nodup :
    ∀ {names : List String} {seen : List String}, names.Nodup →
      (∀ n ∈ names, n ∉ seen) → mangleGo seen names = names := by
  intro names
  induction names with
  | nil => intro seen _ _; rfl
  | cons n ns ih =>
    intro seen hnd hdis
    unfold mangleGo
    rw [if_pos (List.count_eq_zero.mpr (hdis n (by simp)))]
    congr 1
    refine ih (List.nodup_cons.mp hnd).2 fun m hm => ?_
    intro hmem
    rcases List.mem_cons.mp hmem with rfl | h2
    · exact (List.nodup_cons.mp hnd).1 hm
    · exact hdis m (List.mem_cons_of_mem n hm) h2

lemma mk_data (s : String) : String.mk s.data = s := rfl

lemma eq_empty_of_data_eq_nil {s : String} (h : s.data = []) : s = "" := by
  cases s with
  | mk d =>
    simp only at h
    rw [h]

lemma joinWith_ne_nil {sep : Char} :
    ∀ {css : List (List Char)}, css ≠ [] → css ≠ [[]] → joinWith sep css ≠ [] := by
  intro css h1 h2
  match css with
  | [] => exact absurd rfl h1
  | [p] =>
    rw [joinWith]
    intro he
    exact h2 (by rw [he])
  | p :: q :: qs =>
    rw [joinWith]
    simp

/-- Claim C8, counterexample: pandas mangles duplicate header names.  The
two-column CSV text with header `a,a` loads with column names `a` and `a.1`,
not the header names verbatim. -/
theorem C8_load_csv_counterexample :
    (load_csv "a,a\n1,2").map DataFrame.cols = some ["a", "a.1"] ∧
    (["a", "a.1"] : List String) ≠ ["a", "a"] := by
  decide

/-- Claim C8 (amended): for every CSV text of unquoted fields — header names
nonempty, free of separators, and pairwise distinct (pandas appends `.k` to
the `k`-th duplicate of a name, the counterexample above); each of the `N`
records with exactly `C = names.length` separator-free fields and not a
single empty field (a blank line is skipped) — `load_csv` returns a table of
exactly `N` rows and `C` columns whose column names equal the header names
verbatim. -/
theorem C8_load_csv_shape (names : List String) (records : List (List String))
    (hnodup : names.Nodup)
    (hne : names ≠ [])
    (hnames : ∀ n ∈ names, n.data ≠ [] ∧ '\n' ∉ n.data ∧ ',' ∉ n.data)
    (hrecs : ∀ r ∈ records, r.length = names.length ∧ r ≠ [""] ∧
      ∀ f ∈ r, '\n' ∉ f.data ∧ ',' ∉ f.data) :
    ∃ df, load_csv (serializeCsv names records) = some df ∧
      df.cols = names ∧
      df.rows.length = records.length ∧
      ∀ row ∈ df.rows, row.length = names.length := by
  have hnamesmap_ne : names.map String.data ≠ [] := by
    intro h
    exact hne (List.map_eq_nil_iff.mp h)
  have hnocomma_names : ∀ cs ∈ names.map String.data, ',' ∉ cs := by
    intro cs hcs
    obtain ⟨n, hn, rfl⟩ := List.mem_map.mp hcs
    exact (hnames n hn).2.2
  have hrecmap_ne : ∀ r ∈ records, r.map String.data ≠ [] := by
    intro r hr h
    have := (hrecs r hr).1
    rw [List.map_eq_nil_iff.mp h] at this
    simp only [List.length_nil] at this
    exact hne (List.length_eq_zero.mp this.symm)
  have hnocomma_recs : ∀ r ∈ records, ∀ cs ∈ r.map String.data, ',' ∉ cs := by
    intro r hr cs hcs
    obtain ⟨f, hf, rfl⟩ := List.mem_map.mp hcs
    exact ((hrecs r hr).2.2 f hf).2
  -- the serialized lines
  have hheader : splitOnChar ',' (joinWith ',' (names.map String.data)) =
      names.map String.data :=
    joinWith_split hnamesmap_ne hnocomma_names
  have hrecline : ∀ r ∈ records,
      splitOnChar ',' (joinWith ',' (r.map String.data)) = r.map String.data :=
    fun r hr => joinWith_split (hrecmap_ne r hr) (hnocomma_recs r hr)
  -- no newline occurs in any line
  have hnonl : ∀ cs ∈ (joinWith ',' (names.map String.data) ::
      records.map fun r => joinWith ',' (r.map String.data)), '\n' ∉ cs := by
    intro cs hcs
    rcases List.mem_cons.mp hcs with rfl | hcs2
    · intro hmem
      rcases mem_joinWith hmem with he | ⟨cs2, hcs2, hc⟩
      · cases he
      · obtain ⟨n, hn, rfl⟩ := List.mem_map.mp hcs2
        exact (hnames n hn).2.1 hc
    · obtain ⟨r, hr, rfl⟩ := List.mem_map.mp hcs2
      intro hmem
      rcases mem_joinWith hmem with he | ⟨cs2, hcs2, hc⟩
      · cases he
      · obtain ⟨f, hf, rfl⟩ := List.mem_map.mp hcs2
        exact ((hrecs r hr).2.2 f hf).1 hc
  -- splitting the file into its lines
  have hsplit : splitOnChar '\n' (serializeCsv names records).data =
      joinWith ',' (names.map String.data) ::
        records.map fun r => joinWith ',' (r.map String.data) := by
    show splitOnChar '\n' (joinWith '\n' _) = _
    exact joinWith_split (by simp) hnonl
  -- no line is blank
  have hnoblank : ∀ cs ∈ (joinWith ',' (names.map String.data) ::
      records.map fun r => joinWith ',' (r.map String.data)), cs ≠ [] := by
    intro cs hcs
    rcases List.mem_cons.mp hcs with rfl | hcs2
    · refine joinWith_ne_nil hnamesmap_ne fun h => ?_
      cases names with
      | nil => exact hne rfl
      | cons n ns =>
        cases ns with
        | nil =>
          simp only [List.map_cons, List.map_nil, List.cons.injEq, and_true] at h
          exact (hnames n (by simp)).1 h
        | cons m ms => simp at h
    · obtain ⟨r, hr, rfl⟩ := List.mem_map.mp hcs2
      refine joinWith_ne_nil (hrecmap_ne r hr) fun h => ?_
      cases r with
      | nil => simp at h
      | cons f fs =>
        cases fs with
        | nil =>
          simp only [List.map_cons, List.map_nil, List.cons.injEq, and_true] at h
          exact (hrecs (f :: []) hr).2.1 (by rw [eq_empty_of_data_eq_nil h])
        | cons f2 fs2 => simp at h
  have hfilter : (splitOnChar '\n' (serializeCsv names records).data).filter
      (fun l => l ≠ []) = joinWith ',' (names.map String.data) ::
        records.map fun r => joinWith ',' (r.map String.data) := by
    rw [hsplit]
    rw [List.filter_eq_self]
    intro a ha
    simpa using hnoblank a ha
  have hload : load_csv (serializeCsv names records) = some
      { cols := mangleDup (((splitOnChar ','
          (joinWith ',' (names.map String.data))).map fun cs => String.mk cs))
        dtypes := ((splitOnChar ','
          (joinWith ',' (names.map String.data))).map fun cs => String.mk cs).map
            fun _ => Dtype.object
        rows := (records.map fun r => joinWith ',' (r.map String.data)).map
          fun line => (splitOnChar ',' line).map fun cs => inferCell (String.mk cs) } := by
    unfold load_csv parseCsvChars
    rw [hfilter]
  refine ⟨_, hload, ?_, ?_, ?_⟩
  · show mangleDup _ = names
    rw [hheader, List.map_map]
    have hid : ((fun cs => String.mk cs) ∘ String.data) = id := funext fun n => mk_data n
    rw [hid, List.map_id]
    exact mangleGo_of_nodup hnodup fun n _ hmem => List.not_mem_nil n hmem
  · simp
  · intro row hrow
    simp only [List.map_map, List.mem_map, Function.comp_apply] at hrow
    obtain ⟨r, hr, rfl⟩ := hrow
    rw [hrecline r hr]
    simp [(hrecs r hr).1]

/-- Witness for the amended C8 at a concrete input: a two-column CSV with
two records loads as a 2×2 table named verbatim. -/
theorem C8_load_csv_shape_witness :
    ∃ df, load_csv (serializeCsv ["a", "b"] [["1", "2"], ["x", "y"]]) = some df ∧
      df.cols = ["a", "b"] ∧
      df.rows.length = 2 ∧
      ∀ row ∈ df.rows, row.length = (["a", "b"] : List String).length := by
  have h := C8_load_csv_shape ["a", "b"] [["1", "2"], ["x", "y"]]
    (by decide) (by decide) (by decide) (by decide)
  obtain ⟨df, h1, h2, h3, h4⟩ := h
  exact ⟨df, h1, h2, h3, h4⟩

/-! ## Object-level model for the frame-effect claim

The processor and analyzer methods are pure over values, but the claim that
each one leaves the caller's DataFrame untouched is about Python object
identity: `df.copy()` allocates a fresh object and the later
`df.columns = ...` / `df[col] = ...` statements mutate that fresh object,
never the argument.  The embedding makes the object store explicit: a heap
of frames, `halloc` for `copy()` and for library calls returning new frames,
`hset` for in-place mutation of one object. -/

/-- The object store: one `DataFrame` value per live object. -/
abbrev Heap := List DataFrame

/-- Read an object. -/
def hget (h : Heap) (r : ℕ) : DataFrame :=
  h.getD r default

/-- Allocate a fresh object holding `df`; returns the new store and the new
reference. -/
def halloc (h : Heap) (df : DataFrame) : Heap × ℕ :=
  (h ++ [df], h.length)

/-- Overwrite the object at `r` in place. -/
def hset (h : Heap) (r : ℕ) (df : DataFrame) : Heap :=
  h.set r df

/-- `clean_migration_data` at the object level: `cleaned_df = df.copy()`
allocates, `cleaned_df.drop_duplicates()` returns another fresh frame that
the local name is rebound to; nothing is written in place. -/
def cleanS (h : Heap) (r : ℕ) : Heap × ℕ :=
  let a1 := halloc h (hget h r)
  let a2 := halloc a1.1 (clean_migration_data (hget a1.1 a1.2))
  a2

/-- `standardize_column_names` at the object level: `df = df.copy()`
allocates, `df.columns = ...` mutates the copy in place. -/
def standardizeS (h : Heap) (r : ℕ) : Heap × ℕ :=
  let a1 := halloc h (hget h r)
  let h2 := hset a1.1 a1.2
    { hget a1.1 a1.2 with cols := (hget a1.1 a1.2).cols.map standardizeName }
  (h2, a1.2)

/-- One loop iteration of `validate_data_types` at the object level:
`df[col] = ...` mutates the copy (or leaves it alone on a caught failure or
unknown column/type). -/
def validateStepS (rc : ℕ) (h : Heap) (ct : String × String) : Heap :=
  hset h rc (applyConversion (hget h rc) ct.1 ct.2)

/-- `validate_data_types` at the object level: `df = df.copy()` then the
conversion loop mutating the copy. -/
def validateS (h : Heap) (r : ℕ) (ets : List (String × String)) : Heap × ℕ :=
  let a1 := halloc h (hget h r)
  (ets.foldl (validateStepS a1.2) a1.1, a1.2)

/-- `df[time_col].dt.year` on one converted cell; missing dates drop out of
the `groupby` (pandas drops `NaN` group keys). -/
def yearKey : Value → Option ℚ
  | .date d => some ((d / 10000 : Int) : ℚ)
  | _ => none

/-- The `sum`, `mean`, `count` aggregate cells of one group
(`count` counts non-missing values; an empty mean is `NaN`). -/
def aggCells (vals : List Value) : List Value :=
  [Value.num (nanSum vals),
   (match nanMean vals with
    | some m => Value.num m
    | none => Value.null),
   Value.num ((vals.filterMap cellNum).length : ℚ)]

/-- The `groupby(...)[migration_col].agg(['sum','mean','count']).reset_index()`
frame of `migration_trends`, grouped by year, optionally also by a key
column.  Group keys appear in first-occurrence order (pandas additionally
sorts them; no claim depends on row order here). -/
def trendsFrame (df : DataFrame) (time_col migration_col : String)
    (groupby_col : Option String) : DataFrame :=
  match groupby_col with
  | none =>
    let keyed := ((getColD df time_col).zip (getColD df migration_col)).filterMap
      fun tv => (yearKey tv.1).map fun y => (y, tv.2)
    let keys := dedupGo [] (keyed.map Prod.fst)
    { cols := [time_col, "sum", "mean", "count"]
      dtypes := [Dtype.int64, Dtype.float64, Dtype.float64, Dtype.int64]
      rows := keys.map fun y =>
        Value.num y :: aggCells (((keyed.filter fun p => p.1 = y).map Prod.snd)) }
  | some g =>
    let keyed := (((getColD df g).zip (getColD df time_col)).zip
        (getColD df migration_col)).filterMap
      fun gtv => (yearKey gtv.1.2).map fun y => ((gtv.1.1, y), gtv.2)
    let keys := dedupGo [] (keyed.map Prod.fst)
    { cols := [g, time_col, "sum", "mean", "count"]
      dtypes := [Dtype.object, Dtype.int64, Dtype.float64, Dtype.float64,
        Dtype.int64]
      rows := keys.map fun k =>
        k.1 :: Value.num k.2 ::
          aggCells (((keyed.filter fun p => p.1 = k).map Prod.snd)) }

/-- `MigrationAnalyzer.migration_trends` at the object level
(`analysis.py` lines 51-86): missing-column checks raise before anything is
allocated; `df = df.copy()` allocates; `df[time_col] = pd.to_datetime(...)`
either raises (copy allocated, nothing written) or mutates the copy; the
`groupby` aggregate is a fresh frame. -/
def migration_trendsS (h : Heap) (r : ℕ) (time_col migration_col : String)
    (groupby_col : Option String) : Heap × Option ℕ :=
  if time_col ∉ (hget h r).cols ∨ migration_col ∉ (hget h r).cols then (h, none)
  else
    match mapOption toDatetimeCell
        (getColD (hget (h ++ [hget h r]) h.length) time_col) with
    | none => (h ++ [hget h r], none)
    | some tvals =>
      (hset (h ++ [hget h r]) h.length
          (setCol (hget (h ++ [hget h r]) h.length) time_col tvals
            Dtype.datetime) ++
        [trendsFrame
          (hget (hset (h ++ [hget h r]) h.length
            (setCol (hget (h ++ [hget h r]) h.length) time_col tvals
              Dtype.datetime)) h.length)
          time_col migration_col groupby_col],
        some (hset (h ++ [hget h r]) h.length
          (setCol (hget (h ++ [hget h r]) h.length) time_col tvals
            Dtype.datetime)).length)

/-! ### Frame-effect lemmas -/

lemma hget_append {h : Heap} {r : ℕ} (df : DataFrame) (hr : r < h.length) :
    hget (h ++ [df]) r = hget h r := by
  unfold hget
  rw [List.getD_eq_getElem?_getD, List.getD_eq_getElem?_getD,
    List.getElem?_append_left hr]

lemma hget_set_ne {h : Heap} {i r : ℕ} (df : DataFrame) (hir : i ≠ r) :
    hget (hset h i df) r = hget h r := by
  unfold hget hset
  exact getD_set_ne h default df hir

lemma hget_append_self (h : Heap) (df : DataFrame) :
    hget (h ++ [df]) h.length = df := by
  unfold hget
  rw [List.getD_eq_getElem?_getD, List.getElem?_concat_length]
  rfl

lemma hget_set_self {h : Heap} {r : ℕ} (df : DataFrame) (hr : r < h.length) :
    hget (hset h r df) r = df := by
  unfold hget hset
  rw [List.getD_eq_getElem?_getD, List.getElem?_set_self hr]
  rfl

lemma validate_fold_ne {rc r : ℕ} (hne : r ≠ rc) :
    ∀ (ets : List (String × String)) (h : Heap),
      hget (ets.foldl (validateStepS rc) h) r = hget h r := by
  intro ets
  induction ets with
  | nil => intro h; rfl
  | cons ct rest ih =>
    intro h
    show hget (rest.foldl (validateStepS rc) (validateStepS rc h ct)) r = hget h r
    rw [ih (validateStepS rc h ct)]
    exact hget_set_ne _ fun e => hne e.symm

/-- Claim C9: each of `clean_migration_data`, `standardize_column_names`,
`validate_data_types` and `migration_trends` leaves the caller's DataFrame
object untouched — each works on a freshly allocated copy (a reference
distinct from the argument) and returns a new value. -/
theorem C9_operations_preserve_argument (h : Heap) (r : ℕ) (hr : r < h.length)
    (ets : List (String × String)) (time_col migration_col : String)
    (groupby_col : Option String) :
    (hget (cleanS h r).1 r = hget h r ∧ (cleanS h r).2 ≠ r) ∧
    (hget (standardizeS h r).1 r = hget h r ∧ (standardizeS h r).2 ≠ r) ∧
    (hget (validateS h r ets).1 r = hget h r ∧ (validateS h r ets).2 ≠ r) ∧
    (hget (migration_trendsS h r time_col migration_col groupby_col).1 r =
      hget h r ∧
     ∀ rt, (migration_trendsS h r time_col migration_col groupby_col).2 =
        some rt → rt ≠ r) := by
  refine ⟨⟨?_, ?_⟩, ⟨?_, ?_⟩, ⟨?_, ?_⟩, ?_, ?_⟩
  · show hget ((h ++ [hget h r]) ++ [_]) r = hget h r
    rw [hget_append _ (by simpa using Nat.lt_succ_of_lt hr), hget_append _ hr]
  · show (h ++ [hget h r]).length ≠ r
    simp only [List.length_append, List.length_cons, List.length_nil]
    omega
  · show hget (hset (h ++ [hget h r]) h.length _) r = hget h r
    rw [hget_set_ne _ (Nat.ne_of_gt hr), hget_append _ hr]
  · exact fun e => absurd e.symm (Nat.ne_of_lt hr)
  · show hget (ets.foldl (validateStepS h.length) (h ++ [hget h r])) r = hget h r
    rw [validate_fold_ne (Nat.ne_of_lt hr) ets, hget_append _ hr]
  · exact fun e => absurd e.symm (Nat.ne_of_lt hr)
  · unfold migration_trendsS
    split_ifs with hcols
    · rfl
    · cases hm : mapOption toDatetimeCell
        (getColD (hget (h ++ [hget h r]) h.length) time_col) with
      | none =>
        show hget (h ++ [hget h r]) r = hget h r
        exact hget_append _ hr
      | some tvals =>
        show hget (hset (h ++ [hget h r]) h.length _ ++ [_]) r = hget h r
        rw [hget_append _ (by simp [hset]; omega), hget_set_ne _ (Nat.ne_of_gt hr),
          hget_append _ hr]
  · intro rt hrt
    unfold migration_trendsS at hrt
    split_ifs at hrt with hcols
    · cases hm : mapOption toDatetimeCell
        (getColD (hget (h ++ [hget h r]) h.length) time_col) with
      | none => rw [hm] at hrt; simp at hrt
      | some tvals =>
        rw [hm] at hrt
        simp only [Option.some.injEq] at hrt
        rw [← hrt]
        unfold hset
        simp only [List.length_set, List.length_append, List.length_cons,
          List.length_nil]
        omega

/-- Witness for C9 at a concrete input: a one-object heap; all four
operations leave that object unchanged. -/
theorem C9_operations_preserve_argument_witness :
    (0 < ([⟨["a"], [Dtype.object], [[Value.str "x"]]⟩] : Heap).length) ∧
    hget (cleanS [⟨["a"], [Dtype.object], [[Value.str "x"]]⟩] 0).1 0 =
      hget [⟨["a"], [Dtype.object], [[Value.str "x"]]⟩] 0 :=
  ⟨by decide,
    ((C9_operations_preserve_argument
      [⟨["a"], [Dtype.object], [[Value.str "x"]]⟩] 0 (by decide)
      [("a", "numeric")] "a" "a" none).1).1⟩

/-! ## `MigrationAnalyzer.migration_clustering` (`analysis.py` lines 124-164)

`StandardScaler().fit_transform` then `KMeans(n_clusters, random_state=42)`.
The library draws its initial centers from a PRNG; with `random_state=None`
that PRNG is seeded from ambient run-to-run entropy, with `random_state=42`
it is seeded with 42.  The embedding threads the ambient entropy of the run
explicitly (`runEntropy`) and lets the fixed `random_state` override it, and
implements k-means as seeded deterministic Lloyd iterations (sklearn runs a
seeded k-means++ initialisation and bounded Lloyd/Elkan iterations; any
deterministic function of data, cluster count and seed carries the claim). -/

/-- The seed actually used by the library PRNG: a fixed `random_state`
overrides the ambient entropy of the run. -/
def kmeansSeed (random_state : Option ℕ) (runEntropy : ℕ) : ℕ :=
  random_state.getD runEntropy

/-- One step of a linear congruential generator, standing in for numpy
`RandomState`. -/
def lcgNext (x : ℕ) : ℕ :=
  (1103515245 * x + 12345) % 2147483648

/-- `df[feature_cols].dropna()`: the selected cells of each row, dropping
every row with a non-numeric entry. -/
def dropNaFeatures (df : DataFrame) (feature_cols : List String) :
    List (List ℚ) :=
  df.rows.filterMap fun r =>
    mapOption (fun c => (colIdx df c).bind fun i => cellNum (r.getD i Value.null))
      feature_cols

/-- Column mean of row-major data. -/
noncomputable def colMean (data : List (List ℚ)) (j : ℕ) : ℝ :=
  (data.map fun row => ((row.getD j 0 : ℚ) : ℝ)).sum / data.length

/-- `StandardScaler` scale of one column: the square root of the biased
variance, 1 for a constant column. -/
noncomputable def colScale (data : List (List ℚ)) (j : ℕ) : ℝ :=
  let v := (data.map fun row => (((row.getD j 0 : ℚ) : ℝ) - colMean data j) ^ 2).sum /
    data.length
  if v = 0 then 1 else Real.sqrt v

/-- `StandardScaler().fit_transform`: centre each column and divide by its
scale. -/
noncomputable def scaleRows (data : List (List ℚ)) (width : ℕ) :
    List (List ℝ) :=
  data.map fun row =>
    (List.range width).map fun j =>
      (((row.getD j 0 : ℚ) : ℝ) - colMean data j) / colScale data j

/-- Squared euclidean distance. -/
noncomputable def sqDist (a b : List ℝ) : ℝ :=
  (List.zipWith (fun u v => (u - v) ^ 2) a b).sum

open Classical in
/-- Index of the nearest centre. -/
noncomputable def nearestIdx (cs : List (List ℝ)) (x : List ℝ) : ℕ :=
  ((cs.map fun c => sqDist x c).enum.foldl
    (fun best p => if p.2 < best.2 then p else best)
    (0, sqDist x (cs.getD 0 []))).1

/-- Mean vector of a cluster. -/
noncomputable def meanVec (width : ℕ) (vs : List (List ℝ)) : List ℝ :=
  (List.range width).map fun j => (vs.map fun v => v.getD j 0).sum / vs.length

/-- One Lloyd iteration: assign each point to its nearest centre, move every
centre to the mean of its cluster (an empty cluster keeps its centre). -/
noncomputable def lloydStep (width : ℕ) (data : List (List ℝ))
    (cs : List (List ℝ)) : List (List ℝ) :=
  (List.range cs.length).map fun j =>
    match (data.filter fun x => nearestIdx cs x = j) with
    | [] => cs.getD j []
    | v :: vs => meanVec width (v :: vs)

/-- Seeded initial centres: `n_clusters` data points drawn by the PRNG. -/
noncomputable def initCenters (seed k : ℕ) (data : List (List ℝ)) :
    List (List ℝ) :=
  (List.range k).map fun i =>
    data.getD ((lcgNext^[i + 1]) seed % data.length) []

/-- The k-means labels: 300 Lloyd iterations (the sklearn `max_iter`
default) from the seeded initialisation, then the final assignment. -/
noncomputable def kmeansLabels (seed k : ℕ) (data : List (List ℝ)) : List ℕ :=
  data.map (nearestIdx ((lloydStep data.headI.length data)^[300]
    (initCenters seed k data)))

/-- The clustering report dictionary. -/
structure ClusteringInfo where
  n_clusters : ℕ
  inertia : ℝ
  cluster_centers : List (List ℝ)
  feature_columns : List String
  cluster_sizes : List (ℕ × ℕ)

open Classical in
/-- `MigrationAnalyzer.migration_clustering`: select and drop-na the feature
columns, standardize, run seeded k-means (`random_state=42`), return the
cluster-labelled data and the report; `none` embeds the exceptions (missing
feature column, fewer samples than clusters). -/
noncomputable def migration_clustering (runEntropy : ℕ) (df : DataFrame)
    (feature_cols : List String) (n_clusters : ℕ) :
    Option (DataFrame × ClusteringInfo) :=
  if feature_cols.all fun c => c ∈ df.cols then
    let data := dropNaFeatures df feature_cols
    if data.length < n_clusters then none
    else
      let scaled := scaleRows data feature_cols.length
      let seed := kmeansSeed (some 42) runEntropy
      let centers := (lloydStep feature_cols.length scaled)^[300]
        (initCenters seed n_clusters scaled)
      let labels := scaled.map (nearestIdx centers)
      some
        ({ cols := feature_cols ++ ["cluster"]
           dtypes := (feature_cols.map fun _ => Dtype.float64) ++ [Dtype.int64]
           rows := (data.zip labels).map fun p =>
             p.1.map Value.num ++ [Value.num (p.2 : ℚ)] },
         { n_clusters := n_clusters
           inertia := ((scaled.zip labels).map fun p =>
             sqDist p.1 (centers.getD p.2 [])).sum
           cluster_centers := centers
           feature_columns := feature_cols
           cluster_sizes := ((List.range n_clusters).filter fun j =>
             labels.contains j).map fun j =>
               (j, (labels.filter fun l => l = j).length) })
  else none

/-- With `random_state=None` the library would draw from the ambient
entropy of the run: the seed is exactly that entropy. -/
theorem kmeansSeed_none (e : ℕ) : kmeansSeed none e = e := rfl

/-- Claim C5: for a fixed frame, feature-column list and cluster count, two
runs of `migration_clustering` — whatever ambient entropy each run carries —
produce identical results, cluster assignments included: the hard-coded
`random_state=42` makes the library PRNG seed, and with it the whole
computation, independent of the run. -/
theorem C5_migration_clustering_deterministic (e1 e2 : ℕ) (df : DataFrame)
    (feature_cols : List String) (n_clusters : ℕ) :
    migration_clustering e1 df feature_cols n_clusters =
      migration_clustering e2 df feature_cols n_clusters := rfl

/-! ## `MigrationAnalyzer.correlation_analysis` (`analysis.py` lines 88-122)

For each candidate feature column the code runs
`scipy.stats.pearsonr(df[target].dropna(), df[col].dropna())`, collects
`feature / correlation / p_value / significant (p < 0.05)` rows, and sorts
them by `abs(correlation)` descending.  scipy returns `(nan, nan)` with a
warning on a constant input, raises on mismatched lengths or fewer than two
samples, special-cases two samples as `(sign*sign, 1.0)`, and computes the
two-sided p-value `2 * I_x(n/2-1, n/2-1)` at `x = (1-|r|)/2`, the
regularized incomplete beta function (the CDF of a symmetric Beta law).
The loop admits a column only when `df[col].dtype in [np.number]`; that test
depends on the installed numpy (abstract-type conversion), and it is
embedded as "the dtype is float64", the reading under which the comparison
can succeed at all.  On an empty row list `pd.DataFrame([])` has no
`correlation` column and `sort_values('correlation')` raises `KeyError`,
so an empty result is an exception, never a value. -/

/-- `np.sign`. -/
def signQ (q : ℚ) : ℚ :=
  if q < 0 then -1 else if q = 0 then 0 else 1

/-- Rational mean (of a nonempty list where used). -/
def meanQ (xs : List ℚ) : ℚ :=
  xs.sum / xs.length

/-- Deviations from the mean. -/
def centered (xs : List ℚ) : List ℚ :=
  xs.map fun x => x - meanQ xs

/-- `Σ (x-x̄)(y-ȳ)`, the covariance numerator of Pearson r. -/
def covSum (xs ys : List ℚ) : ℚ :=
  (List.zipWith (· * ·) (centered xs) (centered ys)).sum

/-- `Σ (x-x̄)²`. -/
def varSum (xs : List ℚ) : ℚ :=
  covSum xs xs

/-- The integrand of the Beta integral with both parameters `a`. -/
noncomputable def betaKernel (a t : ℝ) : ℝ :=
  t ^ (a - 1) * (1 - t) ^ (a - 1)

/-- The regularized incomplete beta function `I_x(a, a)`. -/
noncomputable def regIncBeta (a x : ℝ) : ℝ :=
  (∫ t in (0:ℝ)..x, betaKernel a t) / ∫ t in (0:ℝ)..1, betaKernel a t

/-- The scipy `pearsonr` two-sided p-value for `n` samples:
`2 * I_((1-|r|)/2)(n/2-1, n/2-1)`. -/
noncomputable def pvalue (n : ℕ) (r : ℝ) : ℝ :=
  2 * regIncBeta ((n : ℝ) / 2 - 1) ((1 - |r|) / 2)

/-- What `pearsonr` returns when it does not raise; `none` embeds `nan`. -/
structure PearsonResult where
  r : Option ℝ
  p : Option ℝ

/-- `scipy.stats.pearsonr`: `none` embeds the `ValueError` on mismatched
lengths or fewer than two samples; two samples give `(sign*sign, 1.0)`;
constant input gives `(nan, nan)`; otherwise the moment formula
`r = cov / sqrt(varx * vary)` and the beta p-value.  (scipy additionally
clips the float `r` into `[-1, 1]` against rounding; exact rationals need no
clip, and the bound is proved below from Cauchy-Schwarz.) -/
noncomputable def pearsonr (xs ys : List ℚ) : Option PearsonResult :=
  if xs.length ≠ ys.length ∨ xs.length < 2 then none
  else if xs.length = 2 then
    some ⟨some ((signQ (xs.getD 1 0 - xs.getD 0 0) *
      signQ (ys.getD 1 0 - ys.getD 0 0) : ℚ) : ℝ), some 1⟩
  else if varSum xs = 0 ∨ varSum ys = 0 then some ⟨none, none⟩
  else
    some ⟨some ((covSum xs ys : ℝ) / Real.sqrt ((varSum xs * varSum ys : ℚ) : ℝ)),
      some (pvalue xs.length
        ((covSum xs ys : ℝ) / Real.sqrt ((varSum xs * varSum ys : ℚ) : ℝ)))⟩

/-- A numeric series for scipy: `dropna` removes the missing cells, and any
remaining non-numeric cell is a raised `TypeError` (`none`). -/
def cellOkForCorr : Value → Bool
  | .num _ => true
  | .null => true
  | _ => false

/-- The numeric content of a column after `dropna()`, or the exception. -/
def seriesNums (vs : List Value) : Option (List ℚ) :=
  if vs.all cellOkForCorr then some (vs.filterMap cellNum) else none

/-- One row of the correlation table. -/
structure CorrRow where
  feature : String
  correlation : Option ℝ
  p_value : Option ℝ
  significant : Bool

open Classical in
/-- The row computed for one feature column, or the exception scipy
raised. -/
noncomputable def corrRowOf (df : DataFrame) (target c : String) :
    Option CorrRow :=
  match seriesNums (getColD df target), seriesNums (getColD df c) with
  | some xs, some ys =>
    (pearsonr xs ys).map fun pr =>
      { feature := c
        correlation := pr.r
        p_value := pr.p
        significant :=
          match pr.p with
          | some p => if p < 0.05 then true else false
          | none => false }
  | _, _ => none

/-- The sort key of `sort_values('correlation', key=abs, ascending=False)`:
`nan` sorts last (`⊥`). -/
noncomputable def absKey (row : CorrRow) : WithBot ℝ :=
  match row.correlation with
  | some r => ((|r| : ℝ) : WithBot ℝ)
  | none => ⊥

open Classical in
/-- Insertion into a list sorted by decreasing `absKey`. -/
noncomputable def insertCorr (a : CorrRow) : List CorrRow → List CorrRow
  | [] => [a]
  | b :: bs => if absKey b ≤ absKey a then a :: b :: bs else b :: insertCorr a bs

/-- Sort by decreasing `absKey`. -/
noncomputable def sortCorr (l : List CorrRow) : List CorrRow :=
  l.foldr insertCorr []

/-- Is a dtype selected by `select_dtypes(include=[np.number])`? -/
def numericDtype : Dtype → Bool
  | .int64 => true
  | .int32 => true
  | .int16 => true
  | .int8 => true
  | .float64 => true
  | .float32 => true
  | _ => false

/-- The candidate features: the given list, or every numeric column other
than the target. -/
def corrFeatures (df : DataFrame) (target : String)
    (feature_cols : Option (List String)) : List String :=
  match feature_cols with
  | some fs => fs
  | none =>
    (df.cols.filter fun c => numericDtype ((dtypeOf df c).getD Dtype.object)).filter
      fun c => c ≠ target

/-- `MigrationAnalyzer.correlation_analysis`: compute a row per admitted
feature and sort; `none` embeds every raised exception — a scipy error, or
the `KeyError` of sorting an empty table. -/
noncomputable def correlation_analysis (df : DataFrame) (target : String)
    (feature_cols : Option (List String)) : Option (List CorrRow) :=
  match mapOption (corrRowOf df target)
      ((corrFeatures df target feature_cols).filter fun c =>
        decide (c ∈ df.cols) && decide (dtypeOf df c = some Dtype.float64)) with
  | none => none
  | some [] => none
  | some (r0 :: rs) => some (sortCorr (r0 :: rs))

/-! ### Cauchy-Schwarz for the Pearson numerator -/

lemma zipWith_self_sum_nonneg (a : List ℚ) :
    0 ≤ (List.zipWith (· * ·) a a).sum := by
  induction a with
  | nil => simp
  | cons x xs ih =>
    simp only [List.zipWith_cons_cons, List.sum_cons]
    have := mul_self_nonneg x
    linarith

lemma list_cauchy_schwarz :
    ∀ (a b : List ℚ),
      (List.zipWith (· * ·) a b).sum ^ 2 ≤
        (List.zipWith (· * ·) a a).sum * (List.zipWith (· * ·) b b).sum := by
  intro a
  induction a with
  | nil => intro b; simp
  | cons x xs ih =>
    intro b
    cases b with
    | nil => simp
    | cons y ys =>
      simp only [List.zipWith_cons_cons, List.sum_cons]
      have hA := zipWith_self_sum_nonneg xs
      have hB := zipWith_self_sum_nonneg ys
      have hIH := ih ys
      rcases eq_or_lt_of_le hB with hB0 | hBpos
      · have hS0 : (List.zipWith (· * ·) xs ys).sum = 0 := by
          have h1 : (List.zipWith (· * ·) xs ys).sum ^ 2 ≤ 0 := by
            calc (List.zipWith (· * ·) xs ys).sum ^ 2 ≤
                (List.zipWith (· * ·) xs xs).sum * (List.zipWith (· * ·) ys ys).sum :=
                  hIH
            _ = 0 := by rw [← hB0, mul_zero]
          exact pow_eq_zero_iff (by omega) |>.mp
            (le_antisymm h1 (sq_nonneg _))
        rw [hS0, ← hB0]
        nlinarith [mul_nonneg hA (sq_nonneg y), sq_nonneg (x * y)]
      · nlinarith [sq_nonneg (x * (List.zipWith (· * ·) ys ys).sum -
            y * (List.zipWith (· * ·) xs ys).sum),
          mul_nonneg (sq_nonneg y)
            (sub_nonneg.mpr hIH),
          mul_nonneg (le_of_lt hBpos) (sub_nonneg.mpr hIH)]

lemma covSum_sq_le (xs ys : List ℚ) :
    covSum xs ys ^ 2 ≤ varSum xs * varSum ys :=
  list_cauchy_schwarz (centered xs) (centered ys)

lemma varSum_nonneg (xs : List ℚ) : 0 ≤ varSum xs :=
  zipWith_self_sum_nonneg (centered xs)

/-! ### Sortedness of the correlation table -/

lemma mem_insertCorr {x a : CorrRow} :
    ∀ {l : List CorrRow}, x ∈ insertCorr a l ↔ x = a ∨ x ∈ l := by
  intro l
  induction l with
  | nil => simp [insertCorr]
  | cons b bs ih =>
    unfold insertCorr
    split_ifs with h
    · simp only [List.mem_cons]
    · simp only [List.mem_cons, ih]
      tauto

lemma mem_sortCorr {x : CorrRow} :
    ∀ {l : List CorrRow}, x ∈ sortCorr l ↔ x ∈ l := by
  intro l
  induction l with
  | nil => simp [sortCorr]
  | cons a l2 ih =>
    show x ∈ insertCorr a (sortCorr l2) ↔ _
    rw [mem_insertCorr]
    simp only [List.mem_cons, ih]

lemma pairwise_insertCorr {a : CorrRow} :
    ∀ {l : List CorrRow},
      l.Pairwise (fun u v => absKey v ≤ absKey u) →
      (insertCorr a l).Pairwise (fun u v => absKey v ≤ absKey u) := by
  intro l
  induction l with
  | nil => intro _; simp [insertCorr]
  | cons b bs ih =>
    intro h
    obtain ⟨hb, hbs⟩ := List.pairwise_cons.mp h
    unfold insertCorr
    split_ifs with hba
    · refine List.pairwise_cons.mpr ⟨?_, h⟩
      intro v hv
      rcases List.mem_cons.mp hv with rfl | hv2
      · exact hba
      · exact le_trans (hb v hv2) hba
    · refine List.pairwise_cons.mpr ⟨?_, ih hbs⟩
      intro v hv
      rcases mem_insertCorr.mp hv with rfl | hv2
      · exact le_of_lt (lt_of_not_le hba)
      · exact hb v hv2

lemma sortCorr_pairwise :
    ∀ (l : List CorrRow),
      (sortCorr l).Pairwise (fun u v => absKey v ≤ absKey u) := by
  intro l
  induction l with
  | nil => simp [sortCorr]
  | cons a l2 ih => exact pairwise_insertCorr ih

lemma mem_of_mapOption {α β : Type} {f : α → Option β} :
    ∀ {l : List α} {l2 : List β}, mapOption f l = some l2 → ∀ {x}, x ∈ l2 →
      ∃ c ∈ l, f c = some x := by
  intro l
  induction l with
  | nil => intro l2 h x hx; cases h; simp at hx
  | cons a as ih =>
    intro l2 h x hx
    unfold mapOption at h
    cases hfa : f a with
    | none => rw [hfa] at h; simp at h
    | some b =>
      rw [hfa] at h
      cases hrest : mapOption f as with
      | none => rw [hrest] at h; simp at h
      | some bs =>
        rw [hrest] at h
        cases h
        rcases List.mem_cons.mp hx with rfl | hx2
        · exact ⟨a, by simp, hfa⟩
        · obtain ⟨c, hc, hfc⟩ := ih hrest hx2
          exact ⟨c, List.mem_cons_of_mem a hc, hfc⟩

/-! ### The p-value lies in [0, 1]

`pvalue n r = 2 * I_x(a, a)` with `a = n/2 - 1 > 0` for `n ≥ 3` and
`x = (1-|r|)/2 ∈ [0, 1/2]`.  The regularized incomplete beta value is
nonnegative (nonnegative integrand over a subset of `[0,1]`) and at most
`1/2` (the kernel is symmetric about `1/2`, so the mass below `x ≤ 1/2` is
at most half the total mass, which is positive). -/

lemma betaKernel_nonneg {a t : ℝ} (h0 : 0 ≤ t) (h1 : t ≤ 1) :
    0 ≤ betaKernel a t :=
  mul_nonneg (Real.rpow_nonneg h0 _) (Real.rpow_nonneg (by linarith) _)

lemma betaKernel_symm (a t : ℝ) : betaKernel a (1 - t) = betaKernel a t := by
  unfold betaKernel
  rw [sub_sub_cancel]
  exact mul_comm _ _

lemma betaKernel_integrable_left {a : ℝ} (ha : 0 < a) :
    IntervalIntegrable (betaKernel a) MeasureTheory.volume 0 (1/2) := by
  have h1 : IntervalIntegrable (fun t : ℝ => t ^ (a - 1))
      MeasureTheory.volume 0 (1/2) :=
    intervalIntegral.intervalIntegrable_rpow' (by linarith)
  have h2 : ContinuousOn (fun t : ℝ => (1 - t) ^ (a - 1))
      (Set.uIcc (0:ℝ) (1/2)) := by
    apply ContinuousOn.rpow_const
    · exact (continuous_const.sub continuous_id).continuousOn
    · intro t ht
      left
      rw [Set.uIcc_of_le (by norm_num : (0:ℝ) ≤ 1/2)] at ht
      have := ht.2
      intro he
      have ht1 : t = 1 := by linarith [sub_eq_zero.mp he]
      rw [ht1] at this
      norm_num at this
  exact h1.mul_continuousOn h2

lemma betaKernel_integrable_right {a : ℝ} (ha : 0 < a) :
    IntervalIntegrable (betaKernel a) MeasureTheory.volume (1/2) 1 := by
  have h := (betaKernel_integrable_left ha).comp_sub_left 1
  have he : (fun x : ℝ => betaKernel a (1 - x)) = betaKernel a :=
    funext fun t => betaKernel_symm a t
  rw [he] at h
  norm_num at h
  exact h.symm

lemma betaKernel_integrable {a : ℝ} (ha : 0 < a) :
    IntervalIntegrable (betaKernel a) MeasureTheory.volume 0 1 :=
  (betaKernel_integrable_left ha).trans (betaKernel_integrable_right ha)

lemma betaKernel_integrable_sub {a u v : ℝ} (ha : 0 < a) (hu0 : 0 ≤ u)
    (hu1 : u ≤ 1) (hv0 : 0 ≤ v) (hv1 : v ≤ 1) :
    IntervalIntegrable (betaKernel a) MeasureTheory.volume u v :=
  (betaKernel_integrable ha).mono_set
    (Set.uIcc_subset_uIcc
      (by rw [Set.uIcc_of_le zero_le_one]; exact ⟨hu0, hu1⟩)
      (by rw [Set.uIcc_of_le zero_le_one]; exact ⟨hv0, hv1⟩))

lemma integral_half_symm (a : ℝ) :
    ∫ t in (1/2:ℝ)..1, betaKernel a t = ∫ t in (0:ℝ)..(1/2), betaKernel a t := by
  have he : (fun x : ℝ => betaKernel a (1 - x)) = betaKernel a :=
    funext fun t => betaKernel_symm a t
  have h := intervalIntegral.integral_comp_sub_left (a := 1/2) (b := 1)
    (betaKernel a) 1
  rw [he] at h
  norm_num at h
  exact h

lemma integral_split_half {a : ℝ} (ha : 0 < a) :
    ∫ t in (0:ℝ)..1, betaKernel a t =
      2 * ∫ t in (0:ℝ)..(1/2), betaKernel a t := by
  have hadd := intervalIntegral.integral_add_adjacent_intervals
    (betaKernel_integrable_left ha) (betaKernel_integrable_right ha)
  rw [← hadd, integral_half_symm]
  ring

lemma betaIntegral_nonneg_sub {a u v : ℝ} (h0 : 0 ≤ u) (huv : u ≤ v)
    (h1 : v ≤ 1) : 0 ≤ ∫ t in u..v, betaKernel a t := by
  apply intervalIntegral.integral_nonneg huv
  intro t ht
  exact betaKernel_nonneg (le_trans h0 ht.1) (le_trans ht.2 h1)

lemma betaIntegral_denom_pos {a : ℝ} (ha : 0 < a) :
    0 < ∫ t in (0:ℝ)..1, betaKernel a t := by
  have hmid : 0 < ∫ t in (1/4:ℝ)..(3/4), betaKernel a t := by
    apply intervalIntegral.intervalIntegral_pos_of_pos_on
    · exact betaKernel_integrable_sub ha (by norm_num) (by norm_num)
        (by norm_num) (by norm_num)
    · intro t ht
      unfold betaKernel
      have h1 : (0:ℝ) < t := lt_trans (by norm_num) ht.1
      have h2 : (0:ℝ) < 1 - t := by
        have := ht.2
        linarith [ht.2]
      exact mul_pos (Real.rpow_pos_of_pos h1 _) (Real.rpow_pos_of_pos h2 _)
    · norm_num
  have hs1 := intervalIntegral.integral_add_adjacent_intervals
    (betaKernel_integrable_sub (u := 0) (v := 1/4) ha (le_refl 0) (by norm_num)
      (by norm_num) (by norm_num))
    (betaKernel_integrable_sub (u := 1/4) (v := 1) ha (by norm_num) (by norm_num)
      (by norm_num) (le_refl 1))
  have hs2 := intervalIntegral.integral_add_adjacent_intervals
    (betaKernel_integrable_sub (u := 1/4) (v := 3/4) ha (by norm_num)
      (by norm_num) (by norm_num) (by norm_num))
    (betaKernel_integrable_sub (u := 3/4) (v := 1) ha (by norm_num) (by norm_num)
      (by norm_num) (le_refl 1))
  have hlo := betaIntegral_nonneg_sub (a := a) (le_refl 0)
    (by norm_num : (0:ℝ) ≤ 1/4) (by norm_num)
  have hhi := betaIntegral_nonneg_sub (a := a) (by norm_num : (0:ℝ) ≤ 3/4)
    (by norm_num) (le_refl 1)
  linarith [hs1, hs2, hmid, hlo, hhi]

lemma pvalue_bounds {n : ℕ} (hn : 3 ≤ n) {r : ℝ} (hr : |r| ≤ 1) :
    0 ≤ pvalue n r ∧ pvalue n r ≤ 1 := by
  have ha : 0 < (n:ℝ)/2 - 1 := by
    have h3 : (3:ℝ) ≤ (n:ℝ) := by exact_mod_cast hn
    linarith
  have hx0 : 0 ≤ (1 - |r|)/2 := by linarith
  have hx2 : (1 - |r|)/2 ≤ 1/2 := by
    have := abs_nonneg r
    linarith
  have hD := betaIntegral_denom_pos ha
  have hN0 : 0 ≤ ∫ t in (0:ℝ)..((1 - |r|)/2), betaKernel ((n:ℝ)/2 - 1) t :=
    betaIntegral_nonneg_sub (le_refl 0) hx0 (by linarith)
  have hNhalf : (∫ t in (0:ℝ)..((1 - |r|)/2), betaKernel ((n:ℝ)/2 - 1) t) ≤
      ∫ t in (0:ℝ)..(1/2:ℝ), betaKernel ((n:ℝ)/2 - 1) t := by
    have hadd := intervalIntegral.integral_add_adjacent_intervals
      (betaKernel_integrable_sub ha (le_refl 0) (by norm_num) hx0 (by linarith))
      (betaKernel_integrable_sub ha hx0 (by linarith) (by norm_num)
        (by norm_num : (1/2:ℝ) ≤ 1))
    have hmid := betaIntegral_nonneg_sub (a := (n:ℝ)/2 - 1) hx0 hx2 (by norm_num)
    linarith [hadd, hmid]
  have hDsplit := integral_split_half ha
  unfold pvalue regIncBeta
  constructor
  · exact mul_nonneg (by norm_num) (div_nonneg hN0 (le_of_lt hD))
  · have h2N : 2 * (∫ t in (0:ℝ)..((1 - |r|)/2), betaKernel ((n:ℝ)/2 - 1) t) ≤
        ∫ t in (0:ℝ)..1, betaKernel ((n:ℝ)/2 - 1) t := by
      rw [hDsplit]
      linarith
    calc 2 * ((∫ t in (0:ℝ)..((1 - |r|)/2), betaKernel ((n:ℝ)/2 - 1) t) /
          ∫ t in (0:ℝ)..1, betaKernel ((n:ℝ)/2 - 1) t) =
        (2 * ∫ t in (0:ℝ)..((1 - |r|)/2), betaKernel ((n:ℝ)/2 - 1) t) /
          ∫ t in (0:ℝ)..1, betaKernel ((n:ℝ)/2 - 1) t := by ring
    _ ≤ (∫ t in (0:ℝ)..1, betaKernel ((n:ℝ)/2 - 1) t) /
          ∫ t in (0:ℝ)..1, betaKernel ((n:ℝ)/2 - 1) t :=
        (div_le_div_right hD).mpr h2N
    _ = 1 := div_self (ne_of_gt hD)

/-! ### The correlation bound and the row properties -/

lemma signQ_mul_bounds (a b : ℚ) :
    -1 ≤ signQ a * signQ b ∧ signQ a * signQ b ≤ 1 := by
  unfold signQ
  split_ifs <;> norm_num

lemma pearson_r_abs_le {xs ys : List ℚ} (hx : varSum xs ≠ 0)
    (hy : varSum ys ≠ 0) :
    |((covSum xs ys : ℚ) : ℝ) / Real.sqrt ((varSum xs * varSum ys : ℚ) : ℝ)| ≤ 1 := by
  have hvx : (0:ℝ) < ((varSum xs : ℚ) : ℝ) := by
    have h1 : (0:ℝ) ≤ ((varSum xs : ℚ) : ℝ) := by
      exact_mod_cast varSum_nonneg xs
    have h2 : ((varSum xs : ℚ) : ℝ) ≠ 0 := by exact_mod_cast hx
    exact lt_of_le_of_ne h1 (Ne.symm h2)
  have hvy : (0:ℝ) < ((varSum ys : ℚ) : ℝ) := by
    have h1 : (0:ℝ) ≤ ((varSum ys : ℚ) : ℝ) := by
      exact_mod_cast varSum_nonneg ys
    have h2 : ((varSum ys : ℚ) : ℝ) ≠ 0 := by exact_mod_cast hy
    exact lt_of_le_of_ne h1 (Ne.symm h2)
  have hprod : (0:ℝ) < ((varSum xs * varSum ys : ℚ) : ℝ) := by
    push_cast
    exact mul_pos hvx hvy
  have hsq : (((covSum xs ys : ℚ) : ℝ)) ^ 2 ≤ ((varSum xs * varSum ys : ℚ) : ℝ) := by
    push_cast
    exact_mod_cast covSum_sq_le xs ys
  have hsqrtpos : 0 < Real.sqrt ((varSum xs * varSum ys : ℚ) : ℝ) :=
    Real.sqrt_pos.mpr hprod
  rw [abs_div, abs_of_nonneg (Real.sqrt_nonneg _), div_le_one hsqrtpos,
    ← Real.sqrt_sq_eq_abs]
  exact Real.sqrt_le_sqrt hsq

lemma significant_iff_lt (P : ℝ) :
    ((if P < 0.05 then true else false) = true ↔
      ∃ p, (some P : Option ℝ) = some p ∧ p < 0.05) := by
  by_cases h : P < 0.05
  · exact iff_of_true (by simp [h]) ⟨P, rfl, h⟩
  · refine iff_of_false (by simp [h]) ?_
    rintro ⟨p, hp, hlt⟩
    have he := Option.some.inj hp
    subst he
    exact h hlt

lemma corrRow_bounds {df : DataFrame} {target c : String} {row : CorrRow}
    (h : corrRowOf df target c = some row) :
    (∀ r, row.correlation = some r → -1 ≤ r ∧ r ≤ 1) ∧
    (∀ p, row.p_value = some p → 0 ≤ p ∧ p ≤ 1) ∧
    (row.significant = true ↔ ∃ p, row.p_value = some p ∧ p < 0.05) := by
  unfold corrRowOf at h
  cases hx : seriesNums (getColD df target) with
  | none => rw [hx] at h; simp at h
  | some xs =>
    rw [hx] at h
    cases hy : seriesNums (getColD df c) with
    | none => rw [hy] at h; simp at h
    | some ys =>
      rw [hy] at h
      have h2 : (pearsonr xs ys).map (fun pr =>
          { feature := c
            correlation := pr.r
            p_value := pr.p
            significant :=
              match pr.p with
              | some p => if p < 0.05 then true else false
              | none => false : CorrRow }) = some row := h
      clear h
      unfold pearsonr at h2
      split_ifs at h2 with h1 hn2 hconst
      · simp at h2
      · simp only [Option.map_some'] at h2
        have hrow := (Option.some.inj h2).symm
        subst hrow
        dsimp only
        refine ⟨?_, ?_, ?_⟩
        · intro r hr
          have hre := Option.some.inj hr
          obtain ⟨hb1, hb2⟩ := signQ_mul_bounds (xs.getD 1 0 - xs.getD 0 0)
            (ys.getD 1 0 - ys.getD 0 0)
          rw [← hre]
          exact ⟨by exact_mod_cast hb1, by exact_mod_cast hb2⟩
        · intro p hp
          have hpe := Option.some.inj hp
          rw [← hpe]
          norm_num
        · exact significant_iff_lt 1
      · simp only [Option.map_some'] at h2
        have hrow := (Option.some.inj h2).symm
        subst hrow
        dsimp only
        refine ⟨?_, ?_, ?_⟩
        · intro r hr; cases hr
        · intro p hp; cases hp
        · refine iff_of_false (by simp) ?_
          rintro ⟨p, hp, _⟩
          cases hp
      · simp only [Option.map_some'] at h2
        push_neg at h1
        have hlen3 : 3 ≤ xs.length := by omega
        have hvx : varSum xs ≠ 0 := by
          intro he
          exact hconst (Or.inl he)
        have hvy : varSum ys ≠ 0 := by
          intro he
          exact hconst (Or.inr he)
        have habs := pearson_r_abs_le hvx hvy
        have hrow := (Option.some.inj h2).symm
        subst hrow
        dsimp only
        obtain ⟨hp0, hp1⟩ := pvalue_bounds hlen3 habs
        refine ⟨?_, ?_, ?_⟩
        · intro r hr
          have hre := Option.some.inj hr
          rw [← hre]
          exact abs_le.mp habs
        · intro p hp
          have hpe := Option.some.inj hp
          rw [← hpe]
          exact ⟨hp0, hp1⟩
        · exact significant_iff_lt _

/-- The concrete frame of the C4 counterexample and witness: a running
target column and a constant feature column, both float64. -/
def dfC4 : DataFrame :=
  ⟨["t", "c"], [Dtype.float64, Dtype.float64],
    [[Value.num 0, Value.num 5], [Value.num 1, Value.num 5],
     [Value.num 2, Value.num 5], [Value.num 3, Value.num 5]]⟩

/-- The row scipy produces for the constant column: `nan` correlation and
p-value, not significant. -/
def rowC4 : CorrRow :=
  ⟨"c", none, none, false⟩

lemma corrRowOf_dfC4 : corrRowOf dfC4 "t" "c" = some rowC4 := by
  unfold corrRowOf
  rw [show seriesNums (getColD dfC4 "t") = some [0, 1, 2, 3] from by decide]
  rw [show seriesNums (getColD dfC4 "c") = some [5, 5, 5, 5] from by decide]
  show (pearsonr [0, 1, 2, 3] [5, 5, 5, 5]).map _ = some rowC4
  unfold pearsonr
  have hvar : varSum ([5, 5, 5, 5] : List ℚ) = 0 := by
    norm_num [varSum, covSum, centered, meanQ]
  rw [if_neg (by decide), if_neg (by decide), if_pos (Or.inr hvar)]
  rfl

lemma correlation_analysis_dfC4 :
    correlation_analysis dfC4 "t" (some ["c"]) = some [rowC4] := by
  unfold correlation_analysis
  have hfeat : ((corrFeatures dfC4 "t" (some ["c"])).filter fun c =>
      decide (c ∈ dfC4.cols) && decide (dtypeOf dfC4 c = some Dtype.float64)) =
        ["c"] := by decide
  rw [hfeat]
  have hmap : mapOption (corrRowOf dfC4 "t") ["c"] = some [rowC4] := by
    simp only [mapOption, corrRowOf_dfC4]
  rw [hmap]
  show some (sortCorr [rowC4]) = some [rowC4]
  simp [sortCorr, insertCorr]

/-- Claim C4, counterexample: `correlation_analysis` on a frame with a
constant feature column returns a table (the `nan` row), and that table
violates the claim — its row has no correlation value in `[-1, 1]`; the
correlation is `nan`. -/
theorem C4_correlation_analysis_counterexample :
    correlation_analysis dfC4 "t" (some ["c"]) = some [rowC4] ∧
    ¬ ∀ row ∈ [rowC4], ∃ r, row.correlation = some r ∧ -1 ≤ r ∧ r ≤ 1 := by
  refine ⟨correlation_analysis_dfC4, ?_⟩
  intro hall
  obtain ⟨r, hr, _⟩ := hall rowC4 (by simp)
  simp [rowC4] at hr

/-- Claim C4 (amended): whenever `correlation_analysis` returns a table,
every row whose correlation is a number (scipy yields `nan` for a constant
column — the counterexample) has it in `[-1, 1]`; every numeric p-value lies
in `[0, 1]`; the significant flag holds exactly when the p-value is a number
below 0.05 (a `nan` p-value is not significant); and the rows are ordered by
decreasing absolute correlation with `nan` rows last. -/
theorem C4_correlation_analysis_bounds (df : DataFrame) (target : String)
    (feature_cols : Option (List String)) (rows : List CorrRow)
    (h : correlation_analysis df target feature_cols = some rows) :
    (∀ row ∈ rows,
      (∀ r, row.correlation = some r → -1 ≤ r ∧ r ≤ 1) ∧
      (∀ p, row.p_value = some p → 0 ≤ p ∧ p ≤ 1) ∧
      (row.significant = true ↔ ∃ p, row.p_value = some p ∧ p < 0.05)) ∧
    rows.Pairwise (fun u v => absKey v ≤ absKey u) := by
  unfold correlation_analysis at h
  cases hm : mapOption (corrRowOf df target)
      ((corrFeatures df target feature_cols).filter fun c =>
        decide (c ∈ df.cols) && decide (dtypeOf df c = some Dtype.float64)) with
  | none => rw [hm] at h; simp at h
  | some l =>
    rw [hm] at h
    cases l with
    | nil => simp at h
    | cons r0 rs =>
      have h2 : some (sortCorr (r0 :: rs)) = some rows := h
      have hrows : rows = sortCorr (r0 :: rs) := (Option.some.inj h2).symm
      subst hrows
      constructor
      · intro row hrow
        have hmem : row ∈ r0 :: rs := mem_sortCorr.mp hrow
        obtain ⟨c2, _, hcr⟩ := mem_of_mapOption hm hmem
        exact corrRow_bounds hcr
      · exact sortCorr_pairwise _

/-- Witness for the amended C4 at a concrete input: the constant-column
frame, on which the analysis returns the one-row table. -/
theorem C4_correlation_analysis_bounds_witness :
    correlation_analysis dfC4 "t" (some ["c"]) = some [rowC4] ∧
    ((∀ row ∈ [rowC4],
      (∀ r, row.correlation = some r → -1 ≤ r ∧ r ≤ 1) ∧
      (∀ p, row.p_value = some p → 0 ≤ p ∧ p ≤ 1) ∧
      (row.significant = true ↔ ∃ p, row.p_value = some p ∧ p < 0.05)) ∧
    ([rowC4] : List CorrRow).Pairwise (fun u v => absKey v ≤ absKey u)) :=
  ⟨correlation_analysis_dfC4,
    C4_correlation_analysis_bounds dfC4 "t" (some ["c"]) [rowC4]
      correlation_analysis_dfC4⟩

/-!
### C1: Haversine distance helper
(scripts/analyze_migration_data_enhanced.py, calculate_distance)
-/

/-- Quadrant-aware arctangent following math.atan2. -/
noncomputable def atan2 (y x : ℝ) : ℝ :=
  if 0 < x then Real.arctan (y / x)
  else if x < 0 ∧ 0 ≤ y then Real.arctan (y / x) + Real.pi
  else if x < 0 ∧ y < 0 then Real.arctan (y / x) - Real.pi
  else if x = 0 ∧ 0 < y then Real.pi / 2
  else if x = 0 ∧ y < 0 then -(Real.pi / 2)
  else 0

/-- Degrees to radians, as math.radians. -/
noncomputable def radiansR (d : ℝ) : ℝ := d * Real.pi / 180

/-- calculate_distance from the enhanced analysis script: Haversine
great-circle distance with Earth radius 6371 km. -/
noncomputable def calculate_distance (lat1 lon1 lat2 lon2 : ℝ) : ℝ :=
  let R : ℝ := 6371
  let rlat1 := radiansR lat1
  let rlon1 := radiansR lon1
  let rlat2 := radiansR lat2
  let rlon2 := radiansR lon2
  let dlat := rlat2 - rlat1
  let dlon := rlon2 - rlon1
  let a := Real.sin (dlat / 2) ^ 2 +
    Real.cos rlat1 * Real.cos rlat2 * Real.sin (dlon / 2) ^ 2
  let c := 2 * atan2 (Real.sqrt a) (Real.sqrt (1 - a))
  R * c

lemma calculate_distance_eq (lat1 lon1 lat2 lon2 : ℝ) :
    calculate_distance lat1 lon1 lat2 lon2 =
      6371 * (2 * atan2
        (Real.sqrt (Real.sin ((radiansR lat2 - radiansR lat1) / 2) ^ 2 +
          Real.cos (radiansR lat1) * Real.cos (radiansR lat2) *
            Real.sin ((radiansR lon2 - radiansR lon1) / 2) ^ 2))
        (Real.sqrt (1 - (Real.sin ((radiansR lat2 - radiansR lat1) / 2) ^ 2 +
          Real.cos (radiansR lat1) * Real.cos (radiansR lat2) *
            Real.sin ((radiansR lon2 - radiansR lon1) / 2) ^ 2)))) := rfl

/-- For arguments coming from a Haversine value strictly between 0 and 1, the
atan2 form of the central angle is an arcsin. -/
lemma atan2_arcsin {a : ℝ} (h0 : 0 < a) (h1 : a < 1) :
    atan2 (Real.sqrt a) (Real.sqrt (1 - a)) = Real.arcsin (Real.sqrt a) := by
  have h1a : (0 : ℝ) < 1 - a := by linarith
  have hsq1 : (0 : ℝ) < Real.sqrt (1 - a) := Real.sqrt_pos.mpr h1a
  have hne : Real.sqrt (1 - a) ≠ 0 := ne_of_gt hsq1
  have hsin : Real.sin (Real.arctan (Real.sqrt a / Real.sqrt (1 - a))) =
      Real.sqrt a := by
    rw [Real.sin_arctan]
    have ht2 : 1 + (Real.sqrt a / Real.sqrt (1 - a)) ^ 2 = (1 - a)⁻¹ := by
      rw [div_pow, Real.sq_sqrt (le_of_lt h0), Real.sq_sqrt (le_of_lt h1a)]
      field_simp
    rw [ht2, Real.sqrt_inv]
    field_simp
  have hup : Real.arctan (Real.sqrt a / Real.sqrt (1 - a)) ≤ Real.pi / 2 :=
    le_of_lt (Real.arctan_lt_pi_div_two _)
  have hdown : -(Real.pi / 2) ≤ Real.arctan (Real.sqrt a / Real.sqrt (1 - a)) :=
    le_of_lt (Real.neg_pi_div_two_lt_arctan _)
  unfold atan2
  rw [if_pos hsq1]
  conv_rhs => rw [← hsin]
  exact (Real.arcsin_sin hdown hup).symm

/-- Two-sided Taylor bound for sine on [0, 1], from the quartic remainder. -/
lemma sin_poly_bounds {x : ℝ} (h0 : 0 ≤ x) (h1 : x ≤ 1) :
    x - x ^ 3 / 6 - 5 / 96 * x ^ 4 ≤ Real.sin x ∧
      Real.sin x ≤ x - x ^ 3 / 6 + 5 / 96 * x ^ 4 := by
  have hb := Real.sin_bound (le_trans (le_of_eq (abs_of_nonneg h0)) h1)
  rw [abs_of_nonneg h0] at hb
  have hb2 := abs_le.mp hb
  constructor <;> nlinarith [hb2.1, hb2.2]

/-- Sine is monotone on the closed interval around zero. -/
lemma sin_le_sin_of_le {u v : ℝ} (h0 : -(Real.pi / 2) ≤ u) (huv : u ≤ v)
    (h1 : v ≤ Real.pi / 2) : Real.sin u ≤ Real.sin v :=
  Real.strictMonoOn_sin.monotoneOn ⟨h0, le_trans huv h1⟩
    ⟨le_trans h0 huv, h1⟩ huv

/-- Sine of a point of [lo, hi] ⊆ [0, 1] lies between the Taylor lower bound
at lo and the Taylor upper bound at hi. -/
lemma sin_mem_of_poly {x lo hi : ℝ} (hlo0 : 0 ≤ lo) (hx : lo ≤ x) (hxh : x ≤ hi)
    (hhi1 : hi ≤ 1) :
    lo - lo ^ 3 / 6 - 5 / 96 * lo ^ 4 ≤ Real.sin x ∧
      Real.sin x ≤ hi - hi ^ 3 / 6 + 5 / 96 * hi ^ 4 := by
  have hpi : (3.141592 : ℝ) < Real.pi := Real.pi_gt_3141592
  have hhalf : (1 : ℝ) ≤ Real.pi / 2 := by linarith
  have hpl := (sin_poly_bounds hlo0 (by linarith)).1
  have hph := (sin_poly_bounds (by linarith : (0 : ℝ) ≤ hi) hhi1).2
  have h1 : Real.sin lo ≤ Real.sin x :=
    sin_le_sin_of_le (by linarith) hx (by linarith)
  have h2 : Real.sin x ≤ Real.sin hi :=
    sin_le_sin_of_le (by linarith) hxh (by linarith)
  exact ⟨le_trans hpl h1, le_trans h2 hph⟩

/-- Rational window for the sine of a rational multiple of π, computed from
the Taylor bounds at the rational π bracketing. -/
lemma sin_rat_pi_bounds {q lo hi : ℝ} (hq0 : 0 ≤ q) (hq1 : q * 3.141593 ≤ 1)
    (hlo : lo ≤ q * 3.141592 - (q * 3.141592) ^ 3 / 6 - 5 / 96 * (q * 3.141592) ^ 4)
    (hhi : q * 3.141593 - (q * 3.141593) ^ 3 / 6 + 5 / 96 * (q * 3.141593) ^ 4 ≤ hi) :
    lo ≤ Real.sin (q * Real.pi) ∧ Real.sin (q * Real.pi) ≤ hi := by
  have hpil : (3.141592 : ℝ) < Real.pi := Real.pi_gt_3141592
  have hpiu : Real.pi < 3.141593 := Real.pi_lt_3141593
  have hx1 : q * 3.141592 ≤ q * Real.pi := by nlinarith
  have hx2 : q * Real.pi ≤ q * 3.141593 := by nlinarith
  have hb := sin_mem_of_poly (mul_nonneg hq0 (by norm_num)) hx1 hx2 hq1
  exact ⟨le_trans hlo hb.1, le_trans hb.2 hhi⟩

set_option maxHeartbeats 1000000 in
/-- Window for the half-latitude-difference sine of the Berlin-Paris pair. -/
lemma s1_bounds :
    (0.0319636 : ℝ) ≤ Real.sin (18317 / 1800000 * Real.pi) ∧
      Real.sin (18317 / 1800000 * Real.pi) ≤ 0.0319639 :=
  sin_rat_pi_bounds (by norm_num) (by norm_num) (by norm_num) (by norm_num)

set_option maxHeartbeats 1000000 in
/-- Window for the half-longitude-difference sine of the Berlin-Paris pair. -/
lemma s2_bounds :
    (0.0962997 : ℝ) ≤ Real.sin (55264 / 1800000 * Real.pi) ∧
      Real.sin (55264 / 1800000 * Real.pi) ≤ 0.0963089
 :=
  sin_rat_pi_bounds (by norm_num) (by norm_num) (by norm_num) (by norm_num)

set_option maxHeartbeats 1000000 in
/-- Window for the sine carrying the latitude-sum cosine of the pair. -/
lemma su_bounds :
    (0.1971734 : ℝ) ≤ Real.sin (113766 / 1800000 * Real.pi) ∧
      Real.sin (113766 / 1800000 * Real.pi) ≤ 0.1973354 :=
  sin_rat_pi_bounds (by norm_num) (by norm_num) (by norm_num) (by norm_num)

/-- The Haversine a-value of the Berlin-Paris pair, rewritten in three sines
of rational multiples of π. -/
noncomputable def berlinParisA : ℝ :=
  Real.sin (18317 / 1800000 * Real.pi) ^ 2 +
    (1 - 2 * Real.sin (18317 / 1800000 * Real.pi) ^ 2 -
      Real.sin (113766 / 1800000 * Real.pi)) / 2 *
      Real.sin (55264 / 1800000 * Real.pi) ^ 2

lemma berlinParisA_bounds :
    (0.004733 : ℝ) ≤ berlinParisA ∧ berlinParisA ≤ 0.004736 := by
  obtain ⟨h1l, h1u⟩ := s1_bounds
  obtain ⟨h2l, h2u⟩ := s2_bounds
  obtain ⟨hul, huu⟩ := su_bounds
  have h1sql : (0.0319636 : ℝ) ^ 2 ≤ Real.sin (18317 / 1800000 * Real.pi) ^ 2 := by
    nlinarith
  have h1squ : Real.sin (18317 / 1800000 * Real.pi) ^ 2 ≤ (0.0319639 : ℝ) ^ 2 := by
    nlinarith
  have h2sql : (0.0962997 : ℝ) ^ 2 ≤ Real.sin (55264 / 1800000 * Real.pi) ^ 2 := by
    nlinarith
  have h2squ : Real.sin (55264 / 1800000 * Real.pi) ^ 2 ≤ (0.0963089 : ℝ) ^ 2 := by
    nlinarith
  have hPlo : (0.4003106 : ℝ) ≤ (1 - 2 * Real.sin (18317 / 1800000 * Real.pi) ^ 2 -
      Real.sin (113766 / 1800000 * Real.pi)) / 2 := by nlinarith
  have hPhi : (1 - 2 * Real.sin (18317 / 1800000 * Real.pi) ^ 2 -
      Real.sin (113766 / 1800000 * Real.pi)) / 2 ≤ (0.4003917 : ℝ) := by nlinarith
  have hs2sq0 : (0 : ℝ) ≤ Real.sin (55264 / 1800000 * Real.pi) ^ 2 := sq_nonneg _
  constructor
  · have hmul := mul_le_mul hPlo h2sql (by norm_num) (by nlinarith)
    unfold berlinParisA
    nlinarith [hmul, h1sql]
  · have hmul := mul_le_mul hPhi h2squ hs2sq0 (by norm_num)
    unfold berlinParisA
    nlinarith [hmul, h1squ]

set_option maxHeartbeats 1000000 in
/-- C1: the Haversine helper calculate_distance with Earth radius 6371 km maps
Berlin (52.52, 13.405) and Paris (48.8566, 2.3522) to a distance within 5 km
of 878 km. -/
theorem C1_calculate_distance_berlin_paris :
    |calculate_distance 52.52 13.405 48.8566 2.3522 - 878| ≤ 5 := by
  have hpil : (3.141592 : ℝ) < Real.pi := Real.pi_gt_3141592
  have e1 : (radiansR 48.8566 - radiansR 52.52) / 2 =
      -(18317 / 1800000 * Real.pi) := by
    unfold radiansR; ring
  have e2 : (radiansR 2.3522 - radiansR 13.405) / 2 =
      -(55264 / 1800000 * Real.pi) := by
    unfold radiansR; ring
  have e3 : radiansR 52.52 - radiansR 48.8566 = 2 * (18317 / 1800000 * Real.pi) := by
    unfold radiansR; ring
  have e4 : Real.pi / 2 - (radiansR 52.52 + radiansR 48.8566) =
      -(113766 / 1800000 * Real.pi) := by
    unfold radiansR; ring
  have hcd : Real.cos (radiansR 52.52 - radiansR 48.8566) =
      1 - 2 * Real.sin (18317 / 1800000 * Real.pi) ^ 2 := by
    rw [e3, Real.cos_two_mul]
    nlinarith [Real.sin_sq_add_cos_sq (18317 / 1800000 * Real.pi)]
  have hcs : Real.cos (radiansR 52.52 + radiansR 48.8566) =
      -Real.sin (113766 / 1800000 * Real.pi) := by
    rw [← Real.sin_pi_div_two_sub, e4, Real.sin_neg]
  have hcc : Real.cos (radiansR 52.52) * Real.cos (radiansR 48.8566) =
      (1 - 2 * Real.sin (18317 / 1800000 * Real.pi) ^ 2 -
        Real.sin (113766 / 1800000 * Real.pi)) / 2 := by
    have hprod : Real.cos (radiansR 52.52) * Real.cos (radiansR 48.8566) =
        (Real.cos (radiansR 52.52 - radiansR 48.8566) +
          Real.cos (radiansR 52.52 + radiansR 48.8566)) / 2 := by
      rw [Real.cos_sub, Real.cos_add]; ring
    rw [hprod, hcd, hcs]; ring
  have hAeq : Real.sin ((radiansR 48.8566 - radiansR 52.52) / 2) ^ 2 +
      Real.cos (radiansR 52.52) * Real.cos (radiansR 48.8566) *
        Real.sin ((radiansR 2.3522 - radiansR 13.405) / 2) ^ 2 = berlinParisA := by
    rw [e1, e2, Real.sin_neg, Real.sin_neg, hcc]
    unfold berlinParisA
    ring
  have hA := berlinParisA_bounds
  have hA0 : (0 : ℝ) < berlinParisA := by linarith [hA.1]
  have hA1 : berlinParisA < 1 := by linarith [hA.2]
  rw [calculate_distance_eq, hAeq, atan2_arcsin hA0 hA1]
  have hslo : Real.sin 0.0686 ≤ Real.sqrt berlinParisA := by
    have hp0 : (0 : ℝ) ≤ 0.0686 - (0.0686 : ℝ) ^ 3 / 6 + 5 / 96 * (0.0686 : ℝ) ^ 4 := by
      norm_num
    calc Real.sin 0.0686
        ≤ 0.0686 - (0.0686 : ℝ) ^ 3 / 6 + 5 / 96 * (0.0686 : ℝ) ^ 4 :=
          (sin_poly_bounds (by norm_num) (by norm_num)).2
      _ = Real.sqrt ((0.0686 - (0.0686 : ℝ) ^ 3 / 6 + 5 / 96 * (0.0686 : ℝ) ^ 4) ^ 2) :=
          (Real.sqrt_sq hp0).symm
      _ ≤ Real.sqrt berlinParisA := Real.sqrt_le_sqrt (by nlinarith [hA.1])
  have hshi : Real.sqrt berlinParisA ≤ Real.sin 0.0690 := by
    have hp0 : (0 : ℝ) ≤ 0.0690 - (0.0690 : ℝ) ^ 3 / 6 - 5 / 96 * (0.0690 : ℝ) ^ 4 := by
      norm_num
    calc Real.sqrt berlinParisA
        ≤ Real.sqrt ((0.0690 - (0.0690 : ℝ) ^ 3 / 6 - 5 / 96 * (0.0690 : ℝ) ^ 4) ^ 2) :=
          Real.sqrt_le_sqrt (by nlinarith [hA.2])
      _ = 0.0690 - (0.0690 : ℝ) ^ 3 / 6 - 5 / 96 * (0.0690 : ℝ) ^ 4 := Real.sqrt_sq hp0
      _ ≤ Real.sin 0.0690 := (sin_poly_bounds (by norm_num) (by norm_num)).1
  have harcl : (0.0686 : ℝ) ≤ Real.arcsin (Real.sqrt berlinParisA) := by
    have hm := Real.monotone_arcsin hslo
    rwa [Real.arcsin_sin (by linarith) (by linarith)] at hm
  have harch : Real.arcsin (Real.sqrt berlinParisA) ≤ 0.0690 := by
    have hm := Real.monotone_arcsin hshi
    rwa [Real.arcsin_sin (by linarith) (by linarith)] at hm
  rw [abs_le]
  constructor
  · nlinarith [harcl]
  · nlinarith [harch]


end BirdMigration
